import Mathlib

/-!
Verification of the SFUSD check-register reconstruction pipeline
(`analysis/parse_check_register.py`, the geometric Tesseract parser, and
`analysis/reocr_check_register.py`, the GPT re-OCR parser).

The embedding is shallow: Python strings become `List Char`, Python floats
carrying dollar amounts become `ℚ` (exact arithmetic; `round(x, 2)` becomes
`round2`, rounding half to even as Python's `round` does on exact values),
Python lists become `List`, dictionaries with fixed keys become structures,
and in-place mutation of a list element becomes `List.set`.  Each function
keeps its source name; the two modules live in the namespaces
`ParseCheckRegister` and `ReocrCheckRegister`.
-/

/-- Text is modelled as a list of characters (Python `str`). -/
abbrev Str := List Char

/-- Convenience conversion from a Lean string literal to the text model. -/
def txt (s : String) : Str := s.data

/-- Matches the character class `\d` of the source's regular expressions. -/
def isDigitCh (c : Char) : Bool := decide ('0' ≤ c ∧ c ≤ '9')

/-- Numeric value of a decimal digit character. -/
def charVal (c : Char) : Nat := c.toNat - 48

/-- Value of a big-endian decimal digit string (what Python's `int` computes
on a string of digits). -/
def digitsVal (cs : Str) : Nat := cs.foldl (fun a c => 10 * a + charVal c) 0

/-- Python `int(s)` on a candidate digit string: succeeds exactly on a
non-empty all-digit string.  (In the source a failing `int` would raise;
the pipeline only reaches `int` on strings the surrounding regular
expression already validated, so `Option` is a faithful model.) -/
def parseNat (cs : Str) : Option Nat :=
  if cs ≠ [] ∧ cs.all isDigitCh then some (digitsVal cs) else none

/-- Decimal rendering of a natural number, fuelled (the fuel is always
sufficient at the call site in `natToStr`). -/
def natToStrAux : Nat → Nat → Str
  | 0, _ => []
  | fuel + 1, n => if n = 0 then [] else natToStrAux fuel (n / 10) ++ [Nat.digitChar (n % 10)]

/-- Python `str(n)` for a natural number. -/
def natToStr (n : Nat) : Str := if n = 0 then ['0'] else natToStrAux (n + 1) n

/-- Python `s.zfill(w)`: left-pad with zeros to width `w`. -/
def zfill (w : Nat) (s : Str) : Str := List.replicate (w - s.length) '0' ++ s

/-- Rounding half to even, the tie rule of Python's `round`. -/
def roundHalfEven (q : ℚ) : ℤ :=
  let f := ⌊q⌋
  if q - f < 1 / 2 then f
  else if q - f > 1 / 2 then f + 1
  else if 2 ∣ f then f else f + 1

/-- Python `round(x, 2)` on exact amounts. -/
def round2 (q : ℚ) : ℚ := (roundHalfEven (q * 100) : ℚ) / 100

/-- One `{'fund_object': …, 'exp_amount': …}` sub-line dictionary. -/
structure SubLine where
  fund_object : Str
  exp_amount : ℚ
deriving DecidableEq

instance : Inhabited SubLine := ⟨⟨[], 0⟩⟩

/-- One check-entry dictionary as built by `parse_page` / the re-OCR loop:
keys `check_number`, `date`, `vendor_name`, `fund_object`, `amount`,
`cancelled`, `page`, `sub_lines`. -/
structure Check where
  check_number : Str
  date : Str
  vendor_name : Str
  fund_object : Str
  amount : ℚ
  cancelled : Bool
  page : Nat
  sub_lines : List SubLine
deriving DecidableEq

instance : Inhabited Check := ⟨⟨[], [], [], [], 0, false, 0, []⟩⟩

/-- The `'_MISSING_'` placeholder check number. -/
def MISSING : Str := txt "_MISSING_"

/-- The numbering-series match applied by the neighbour scans of
`infer_missing_check_numbers`: either exactly ten digits (the
`^(\d{3})(\d{7})$` pattern; the flag is `false`) or `DDP-` followed by
digits (the `^DDP-(\d+)$` pattern; the flag is `true`), together with the
numeric value Python's `int` extracts. -/
def seriesOf (s : Str) : Option (Bool × Nat) :=
  if s.length = 10 ∧ s.all isDigitCh then (parseNat s).map (fun n => (false, n))
  else
    match s with
    | 'D' :: 'D' :: 'P' :: '-' :: rest => (parseNat rest).map (fun n => (true, n))
    | _ => none

/-- Numeric value of a record's identifier, when it is resolved. -/
def numVal (c : Check) : Option Nat := (seriesOf c.check_number).map Prod.snd

/-- Formatting of an inferred identifier: `f"DDP-{str(n).zfill(8)}"` for the
DDP series, `str(n).zfill(10)` otherwise. -/
def fmtAssigned (ddp : Bool) (n : Nat) : Str :=
  if ddp then txt "DDP-" ++ zfill 8 (natToStr n) else zfill 10 (natToStr n)

namespace ParseCheckRegister

/-- The backward scan of `infer_missing_check_numbers`
(`for j in range(idx - 1, -1, -1)`): the nearest earlier record whose
identifier matches a series pattern, with its series flag and value. -/
def findBeforeNum (checks : List Check) (idx : Nat) : Option (Bool × Nat) :=
  ((checks.take idx).reverse).findSome? (fun c => seriesOf c.check_number)

/-- The forward scan of `infer_missing_check_numbers`
(`for j in range(idx + 1, len(checks))`): the numeric value of the nearest
later resolved identifier. -/
def findAfterNum (checks : List Check) (idx : Nat) : Option Nat :=
  ((checks.drop (idx + 1)).findSome? (fun c => seriesOf c.check_number)).map Prod.snd

/-- The body of the `for idx in missing_indices` loop of
`infer_missing_check_numbers`: with both neighbours present the identifier
is filled only when the gap is exactly 2; with only the preceding
neighbour present it is filled unconditionally with `before + 1`. -/
def inferOne (checks : List Check) (idx : Nat) : List Check :=
  match findBeforeNum checks idx, findAfterNum checks idx with
  | some (k, b), some a =>
      if (a : ℤ) - (b : ℤ) = 2 then
        checks.set idx { checks.getD idx default with check_number := fmtAssigned k (b + 1) }
      else checks
  | some (k, b), none =>
      checks.set idx { checks.getD idx default with check_number := fmtAssigned k (b + 1) }
  | _, _ => checks

/-- `missing_indices`, computed once on entry to
`infer_missing_check_numbers`. -/
def missingIndices (checks : List Check) : List Nat :=
  (List.range checks.length).filter (fun i => (checks.getD i default).check_number = MISSING)

/-- `infer_missing_check_numbers`: each placeholder index is processed in
order against the partially updated list (the Python loop mutates
`checks` in place). -/
def infer_missing_check_numbers (checks : List Check) : List Check :=
  (missingIndices checks).foldl inferOne checks

/-- `fix_missing_dates`'s loop, threading `last_date`. -/
def fixGo (last : Str) : List Check → List Check
  | [] => []
  | c :: rest =>
      if c.date ≠ [] then c :: fixGo c.date rest
      else { c with date := last } :: fixGo last rest

/-- `fix_missing_dates`: fill empty dates from the previous check
(`last_date` starts as the empty string). -/
def fix_missing_dates (checks : List Check) : List Check := fixGo [] checks

/-- The per-record normalisation of `reconcile_amounts` (the body of its
`for check in checks` loop; `not check['amount'] or check['amount'] == 0`
is `amount = 0` on exact numbers). -/
def reconcileOne (c : Check) : Check :=
  if c.cancelled then c
  else if 1 < c.sub_lines.length then
    if c.amount = 0 then
      { c with amount := round2 ((c.sub_lines.map SubLine.exp_amount).sum) }
    else c
  else if c.sub_lines.length = 1 then
    if c.amount = 0 then { c with amount := (c.sub_lines.getD 0 default).exp_amount }
    else c
  else c

/-- `reconcile_amounts` over the whole batch. -/
def reconcile_amounts (checks : List Check) : List Check := checks.map reconcileOne

end ParseCheckRegister

/-- First-occurrence deduplication (Python `dict` key insertion order /
the `seen` sets of the source). -/
def dedupKeep {α : Type} [DecidableEq α] (seen : List α) : List α → List α
  | [] => []
  | a :: rest => if a ∈ seen then dedupKeep seen rest else a :: dedupKeep (a :: seen) rest

namespace ParseCheckRegister

/-- Grouping step of `detect_check_gaps`: a check number starting with
`020` or `120` contributes `(cn[:3], int(cn))`; one starting with `DDP-`
contributes `('DDP', int(cn.replace('DDP-', '')))`.  (The source's
`replace` removes every occurrence of `DDP-`; pipeline check numbers
contain it at most once, so dropping the head is faithful.) -/
def gapEntry (cn : Str) : Option (Str × Nat) :=
  if cn.take 3 = txt "020" ∨ cn.take 3 = txt "120" then
    (parseNat cn).map (fun n => (cn.take 3, n))
  else if cn.take 4 = txt "DDP-" then
    (parseNat (cn.drop 4)).map (fun n => (txt "DDP", n))
  else none

/-- The numbers reported for one adjacent pair of one group's sorted
distinct values: `range(a + 1, b)` when `1 < b - a <= 20`. -/
def gapFill (k : Str) (a b : Nat) : List Str :=
  if 1 < b - a ∧ b - a ≤ 20 then
    (List.range' (a + 1) (b - a - 1)).map (fun n =>
      if k = txt "DDP" then txt "DDP-" ++ zfill 8 (natToStr n) else zfill 10 (natToStr n))
  else []

/-- `detect_check_gaps` of the geometric parser: group by series, sort the
distinct values of each group, report every number inside a gap of size
between 2 and 20. -/
def detect_check_gaps (checks : List Check) : List Str :=
  let pairs := checks.filterMap (fun c => gapEntry c.check_number)
  (dedupKeep [] (pairs.map Prod.fst)).flatMap (fun k =>
    let nums := List.insertionSort (· ≤ ·)
      (dedupKeep [] ((pairs.filter (fun p => p.1 = k)).map Prod.snd))
    (nums.zip nums.tail).flatMap (fun p => gapFill k p.1 p.2))

/-- `COVER_LETTER_TOTALS.get(month, 0)`. -/
def COVER_LETTER_TOTALS (month : Str) : ℚ :=
  if month = txt "July" then 60523520.99
  else if month = txt "August" then 24700613.85
  else if month = txt "September" then 65280245.59
  else if month = txt "October" then 52194350.99
  else if month = txt "November" then 50948400.89
  else if month = txt "December" then 59059990.47
  else 0

/-- `COVER_LETTER_COUNTS.get(month, {}).get('gross', 0)`. -/
def expectedGrossChecks (month : Str) : Nat :=
  if month = txt "July" then 1088 else if month = txt "August" then 457
  else if month = txt "September" then 1242 else if month = txt "October" then 1122
  else if month = txt "November" then 1123 else if month = txt "December" then 1296
  else 0

/-- `COVER_LETTER_COUNTS.get(month, {}).get('cancels', 0)`. -/
def expectedCancels (month : Str) : Nat :=
  if month = txt "July" then 22 else if month = txt "August" then 27
  else if month = txt "September" then 14 else if month = txt "October" then 11
  else if month = txt "November" then 31 else if month = txt "December" then 20
  else 0

/-- `COVER_LETTER_COUNTS.get(month, {}).get('net', 0)`. -/
def expectedNetChecks (month : Str) : Nat :=
  if month = txt "July" then 1066 else if month = txt "August" then 430
  else if month = txt "September" then 1228 else if month = txt "October" then 1111
  else if month = txt "November" then 1092 else if month = txt "December" then 1276
  else 0

/-- The summary dictionary returned by the geometric parser's
`compute_month_summary`. -/
structure MonthSummary where
  ocr_gross_total : ℚ
  ocr_cancel_total : ℚ
  ocr_net_total : ℚ
  cover_letter_total : ℚ
  difference : ℚ
  pct_difference : ℚ
  active_check_count : Nat
  cancelled_check_count : Nat
  unique_check_numbers : Nat
  expected_gross_checks : Nat
  expected_cancels : Nat
  expected_net_checks : Nat
  missing_check_numbers : List Str
  missing_check_count : Nat
deriving DecidableEq

/-- `compute_month_summary` of the geometric parser.  Note the source sets
`net_total = gross_total` (its comment: active checks already exclude
cancelled amounts). -/
def compute_month_summary (month : Str) (checks : List Check) : MonthSummary :=
  let active := checks.filter (fun c => ¬ c.cancelled)
  let cancelled := checks.filter (fun c => c.cancelled)
  let gross_total := (active.map Check.amount).sum
  let cancel_total := (cancelled.map Check.amount).sum
  let net_total := gross_total
  let expected := COVER_LETTER_TOTALS month
  let pct_diff := if expected ≠ 0 then |net_total - expected| / expected * 100 else 0
  let gaps := detect_check_gaps checks
  { ocr_gross_total := round2 gross_total
    ocr_cancel_total := round2 cancel_total
    ocr_net_total := round2 net_total
    cover_letter_total := expected
    difference := round2 (net_total - expected)
    pct_difference := round2 pct_diff
    active_check_count := active.length
    cancelled_check_count := cancelled.length
    unique_check_numbers := (dedupKeep [] (checks.map Check.check_number)).length
    expected_gross_checks := expectedGrossChecks month
    expected_cancels := expectedCancels month
    expected_net_checks := expectedNetChecks month
    missing_check_numbers := gaps
    missing_check_count := gaps.length }

/-- The run's final verdict line in `main`:
`'PASS' if all(s['pct_difference'] < 2 for s in monthly_summaries.values())
else 'NEEDS REVIEW'`. -/
def final_verdict (summaries : List MonthSummary) : Str :=
  if summaries.all (fun s => s.pct_difference < 2) then txt "PASS" else txt "NEEDS REVIEW"

end ParseCheckRegister

namespace ReocrCheckRegister

/-- `detect_check_gaps` of the re-OCR parser: only exactly-ten-digit check
numbers (`^(\d{10})$`) participate; distinct sorted values; gaps of size
2..20 are reported zero-filled to width 10. -/
def detect_check_gaps (checks : List Check) : List Str :=
  let regular_nums := checks.filterMap (fun c =>
    if c.check_number.length = 10 ∧ c.check_number.all isDigitCh then
      parseNat c.check_number
    else none)
  let nums := List.insertionSort (· ≤ ·) (dedupKeep [] regular_nums)
  (nums.zip nums.tail).flatMap (fun p =>
    if 1 < p.2 - p.1 ∧ p.2 - p.1 ≤ 20 then
      (List.range' (p.1 + 1) (p.2 - p.1 - 1)).map (fun n => zfill 10 (natToStr n))
    else [])

/-- Deduplication key of `deduplicate_checks`:
`(check_number, fund_object, amount)`. -/
def dedupKey (c : Check) : Str × Str × ℚ := (c.check_number, c.fund_object, c.amount)

/-- The `seen`-set loop of `deduplicate_checks`. -/
def dedupGo (seen : List (Str × Str × ℚ)) : List Check → List Check
  | [] => []
  | c :: rest =>
      if dedupKey c ∈ seen then dedupGo seen rest
      else c :: dedupGo (dedupKey c :: seen) rest

/-- `deduplicate_checks`: drop entries whose identifier + fund-object +
amount key was already seen (overlapping half-page merge). -/
def deduplicate_checks (checks : List Check) : List Check := dedupGo [] checks

/-- One entry of `page_stats`. -/
structure PageStat where
  page : Nat
  check_count : Nat
  total : ℚ
  dpi : Nat
  method : Str
deriving DecidableEq

/-- The per-flagged-page body of `retry_weak_pages`, with the two external
re-acquisition results (the full-page re-read at 400 DPI and the two
overlapping half-page reads) passed in as values: replace the page's
records by the 400 DPI variant if it yields strictly more records,
otherwise by the merged deduplicated half-page variant if that yields
strictly more records, otherwise keep the original records. -/
def retry_page_step (all_checks : List Check) (page_num : Nat)
    (retry_checks top_checks bottom_checks : List Check) : List Check :=
  let original_page_checks := all_checks.filter (fun c => c.page = page_num)
  if retry_checks.length > original_page_checks.length then
    all_checks.filter (fun c => c.page ≠ page_num) ++ retry_checks
  else
    let combined := deduplicate_checks (top_checks ++ bottom_checks)
    if combined.length > original_page_checks.length then
      all_checks.filter (fun c => c.page ≠ page_num) ++ combined
    else all_checks

/-- The summary dictionary returned by the re-OCR parser's
`compute_month_summary`. -/
structure MonthSummary where
  ocr_gross_total : ℚ
  ocr_cancel_total : ℚ
  ocr_net_total : ℚ
  cover_letter_total : ℚ
  difference : ℚ
  pct_difference : ℚ
  active_check_count : Nat
  cancelled_check_count : Nat
  unique_check_numbers : Nat
  expected_gross_checks : Nat
  expected_cancels : Nat
  expected_net_checks : Nat
  missing_check_numbers : List Str
  missing_check_count : Nat
  pages_processed : Nat
  pages_retried : Nat
deriving DecidableEq

/-- `compute_month_summary` of the re-OCR parser.  Here
`net_total = gross_total - cancel_total`. -/
def compute_month_summary (month : Str) (checks : List Check)
    (page_stats : List PageStat) : MonthSummary :=
  let active_checks := checks.filter (fun c => ¬ c.cancelled)
  let cancelled_checks := checks.filter (fun c => c.cancelled)
  let gross_total := (active_checks.map Check.amount).sum
  let cancel_total := (cancelled_checks.map Check.amount).sum
  let net_total := gross_total - cancel_total
  let expected := ParseCheckRegister.COVER_LETTER_TOTALS month
  let pct_diff := if expected ≠ 0 then |net_total - expected| / expected * 100 else 0
  let gaps := detect_check_gaps checks
  { ocr_gross_total := round2 gross_total
    ocr_cancel_total := round2 cancel_total
    ocr_net_total := round2 net_total
    cover_letter_total := expected
    difference := round2 (net_total - expected)
    pct_difference := round2 pct_diff
    active_check_count := active_checks.length
    cancelled_check_count := cancelled_checks.length
    unique_check_numbers := (dedupKeep [] (checks.map Check.check_number)).length
    expected_gross_checks := ParseCheckRegister.expectedGrossChecks month
    expected_cancels := ParseCheckRegister.expectedCancels month
    expected_net_checks := ParseCheckRegister.expectedNetChecks month
    missing_check_numbers := gaps
    missing_check_count := gaps.length
    pages_processed := page_stats.length
    pages_retried := (page_stats.filter (fun s => s.method ≠ txt "full_page")).length }

/-- The re-OCR run's final verdict line in `main`, identical to the
geometric parser's. -/
def final_verdict (summaries : List MonthSummary) : Str :=
  if summaries.all (fun s => s.pct_difference < 2) then txt "PASS" else txt "NEEDS REVIEW"

end ReocrCheckRegister

/-- One recognised word with its bounding box, as produced by
`get_word_boxes`. -/
structure Token where
  x : Int
  y : Int
  w : Int
  h : Int
  conf : ℚ
  text : Str
deriving DecidableEq

/-- The sort key of `sorted(words, key=lambda w: (w['y'], w['x']))`:
lexicographic comparison on `(y, x)`. -/
def tokLe (a b : Token) : Prop := a.y < b.y ∨ (a.y = b.y ∧ a.x ≤ b.x)

instance : DecidableRel tokLe := fun a b => by unfold tokLe; infer_instance

instance : IsTotal Token tokLe := ⟨fun a b => by unfold tokLe; omega⟩

instance : IsTrans Token tokLe := ⟨fun a b c hab hbc => by unfold tokLe at *; omega⟩

/-- The within-row sort key of `sorted(current_row, key=lambda w: w['x'])`. -/
def xLe (a b : Token) : Prop := a.x ≤ b.x

instance : DecidableRel xLe := fun a b => by unfold xLe; infer_instance

instance : IsTotal Token xLe := ⟨fun a b => by unfold xLe; omega⟩

instance : IsTrans Token xLe := ⟨fun a b c hab hbc => by unfold xLe at *; omega⟩

namespace ParseCheckRegister

/-- Python's `sorted` is a stable sort; insertion sort with a non-strict
key comparison is extensionally the same stable sort. -/
def sortTokens (words : List Token) : List Token := List.insertionSort tokLe words

/-- `sorted(current_row, key=lambda w: w['x'])`, again a stable sort. -/
def sortRowByX (row : List Token) : List Token := List.insertionSort xLe row

/-- The row-folding loop of `group_into_rows`, threading `current_row` and
`current_y` (the anchor is the first token of the row). -/
def groupGo (tol : Int) (cur : List Token) (curY : Int) : List Token → List (List Token)
  | [] => [sortRowByX cur]
  | w :: ws =>
      if |w.y - curY| ≤ tol then groupGo tol (cur ++ [w]) curY ws
      else sortRowByX cur :: groupGo tol [w] w.y ws

/-- `group_into_rows`: sort by `(y, x)`, then split whenever the vertical
distance to the current row's anchor exceeds the tolerance; each emitted
row is sorted by `x`. -/
def group_into_rows (y_tolerance : Int) (words : List Token) : List (List Token) :=
  match sortTokens words with
  | [] => []
  | w :: ws => groupGo y_tolerance [w] w.y ws

end ParseCheckRegister

namespace ParseCheckRegister

/-- Python's float fallback `x or y`: `0.0` is falsy, anything else
truthy. -/
def pyOr (x y : ℚ) : ℚ := if x = 0 then y else x

/-- `rf.get(key) or y` for an optional amount: an absent key and `0.0`
both fall through to `y`. -/
def pyOrOpt (o : Option ℚ) (y : ℚ) : ℚ :=
  match o with
  | none => y
  | some v => if v = 0 then y else v

/-- `rf.get(key, 0.0)` for an optional amount. -/
def optAmt (o : Option ℚ) : ℚ := o.getD 0

/-- One classified row as `extract_row_fields` returns it, restricted to
the keys the record assembler of `parse_page` reads. -/
structure RowFields where
  check_num : Option Str
  date : Option Str
  vendor : Option Str
  fd_objt : Option Str
  exp_amt : Option ℚ
  check_amt : Option ℚ
  cancelled : Bool
deriving DecidableEq

/-- The record seeded by `parse_page` from a row carrying a check number
(the dictionary literal plus the three amount branches: cancelled, with
fund-object, without). -/
def seedCheck (rf : RowFields) (page_num : Nat) : Check :=
  let current_check : Check :=
    { check_number := rf.check_num.getD []
      date := rf.date.getD []
      vendor_name := rf.vendor.getD []
      fund_object := rf.fd_objt.getD []
      amount := 0
      cancelled := rf.cancelled
      page := page_num
      sub_lines := [] }
  if rf.cancelled then
    { current_check with amount := pyOr (pyOrOpt rf.check_amt (optAmt rf.exp_amt)) 0 }
  else if rf.fd_objt.isSome then
    let exp := pyOr (optAmt rf.exp_amt) 0
    let chk := pyOr (optAmt rf.check_amt) 0
    let c1 := if 0 < chk then { current_check with amount := chk }
              else { current_check with amount := exp }
    if 0 < exp then
      { c1 with sub_lines := c1.sub_lines ++ [⟨rf.fd_objt.getD [], exp⟩] }
    else c1
  else
    { current_check with amount := pyOr (optAmt rf.check_amt) (pyOr (optAmt rf.exp_amt) 0) }

/-- The sub-line step of a genuine continuation row: append a sub-line
when the row has a fund-object and a truthy line amount. -/
def appendSubLine (c : Check) (rf : RowFields) : Check :=
  match rf.fd_objt, rf.exp_amt with
  | some fd, some e => if e = 0 then c else { c with sub_lines := c.sub_lines ++ [⟨fd, e⟩] }
  | _, _ => c

/-- A genuine continuation row of the open record: append its sub-line,
then let a truthy Check Amount overwrite the record's amount (a Check
Amount on a continuation means the total for this check). -/
def continueCheck (c : Check) (rf : RowFields) : Check :=
  match rf.check_amt with
  | some v => if v = 0 then appendSubLine c rf else { appendSubLine c rf with amount := v }
  | none => appendSubLine c rf

/-- The record assembled from its seeding row and the rows the assembler
stitches into it as genuine continuations, in row order. -/
def assembleCheck (rf : RowFields) (page_num : Nat) (rfs : List RowFields) : Check :=
  rfs.foldl continueCheck (seedCheck rf page_num)

/-- The truthy Check Amount a continuation row contributes, if any. -/
def rowTotal (rf : RowFields) : Option ℚ :=
  match rf.check_amt with
  | some v => if v = 0 then none else some v
  | none => none

/-- The explicitly recognized totals of a record's continuation rows, in
row order (each one overwrites the record's amount, so the last wins). -/
def totalsOf (rfs : List RowFields) : List ℚ := rfs.filterMap rowTotal

end ParseCheckRegister

section PipelineInputs

open ParseCheckRegister

/-- Strict lexicographic order on the `(y, x)` sort key. -/
def tokLt (a b : Token) : Prop := a.y < b.y ∨ (a.y = b.y ∧ a.x < b.x)

instance : IsAntisymm Token tokLt :=
  ⟨fun a b hab hba => by unfold tokLt at hab hba; omega⟩

/-- An exact whole number of cents. -/
def IsCents (q : ℚ) : Prop := ∃ z : ℤ, q = (z : ℚ) / 100

/-- The declarative carry-forward value: the last non-empty entry of `ds`,
or `last` when none exists. -/
def lastNonEmptyFrom (last : Str) (ds : List Str) : Str :=
  ds.foldl (fun acc d => if d = [] then acc else d) last

/-- The numeric values of the resolved identifiers of a record list, in
record order. -/
def resolvedVals (l : List Check) : List Nat := l.filterMap numVal

/-- The resolved identifier strings of a record list, in record order. -/
def resolvedIds (l : List Check) : List Str :=
  l.filterMap (fun c => if (seriesOf c.check_number).isSome then some c.check_number else none)

/-- The non-identifier content of a record. -/
def chassis (c : Check) : Str × Str × Str × ℚ × Bool × Nat × List SubLine :=
  (c.date, c.vendor_name, c.fund_object, c.amount, c.cancelled, c.page, c.sub_lines)

/-- A bare record carrying only an identifier. -/
def numbered (cn : String) : Check := { (default : Check) with check_number := txt cn }

/-- The seeding row of a two-line check: line amount 40.00 in the
Expensed Amount column, nothing in the Check Amount column. -/
def rfC2a : RowFields :=
  { check_num := some (txt "0200000021"), date := some (txt "07/15/2025"),
    vendor := some (txt "ACME SUPPLY CO"), fd_objt := some (txt "01-5803"),
    exp_amt := some 40, check_amt := none, cancelled := false }

/-- Its continuation row: line amount 35.00, again no Check Amount, so no
explicit total is recognized anywhere on this record's rows. -/
def rfC2b : RowFields :=
  { check_num := none, date := none, vendor := none,
    fd_objt := some (txt "12-4300"), exp_amt := some 35, check_amt := none,
    cancelled := false }

/-- The record `parse_page` assembles from those two rows. -/
def cxC2 : Check := assembleCheck rfC2a 3 [rfC2b]

/-- Scenario A, record `S-0001`: single line, amount 100.00. -/
def sA1 : Check :=
  { check_number := txt "S-0001", date := txt "07/01/2025",
    vendor_name := txt "VENDOR ONE", fund_object := txt "01-0001",
    amount := 100, cancelled := false, page := 1,
    sub_lines := [⟨txt "01-0001", 100⟩] }

/-- Scenario A, record `S-0002`: cancelled, amount 50.00. -/
def sA2 : Check :=
  { check_number := txt "S-0002", date := txt "07/01/2025",
    vendor_name := txt "VENDOR TWO", fund_object := [],
    amount := 50, cancelled := true, page := 1, sub_lines := [] }

/-- Scenario A, record `S-0004`: two sub-lines 40.00 and 35.00 with
explicit total 75.00. -/
def sA4 : Check :=
  { check_number := txt "S-0004", date := txt "07/01/2025",
    vendor_name := txt "VENDOR THREE", fund_object := txt "01-0002",
    amount := 75, cancelled := false, page := 1,
    sub_lines := [⟨txt "01-0002", 40⟩, ⟨txt "01-0003", 35⟩] }

/-- The Scenario A batch after amount reconciliation. -/
def scenarioABatch : List Check := reconcile_amounts [sA1, sA2, sA4]

/-- The Scenario A summary computed by the geometric parser. -/
def scenarioASummary : MonthSummary := compute_month_summary (txt "ScenarioA") scenarioABatch

/-- An active record worth 100.00 on a scratch batch. -/
def cx1A : Check :=
  { check_number := txt "0200000001", date := txt "07/01/2025",
    vendor_name := txt "VENDOR A", fund_object := txt "01-5803",
    amount := 100, cancelled := false, page := 2, sub_lines := [] }

/-- A cancelled record worth 50.00 on the same batch. -/
def cx1B : Check :=
  { check_number := txt "0200000002", date := txt "07/01/2025",
    vendor_name := txt "VENDOR B", fund_object := [],
    amount := 50, cancelled := true, page := 2, sub_lines := [] }

/-- The geometric summary of the scratch batch. -/
def cx1Summary : ParseCheckRegister.MonthSummary :=
  ParseCheckRegister.compute_month_summary (txt "Scratch") [cx1A, cx1B]

/-- A record whose placeholder identifier stays unresolved (no numeric
neighbour at all). -/
def cx6Check : Check :=
  { check_number := txt "_MISSING_", date := txt "07/01/2025",
    vendor_name := txt "VENDOR X", fund_object := txt "01-5803",
    amount := 10, cancelled := false, page := 2, sub_lines := [] }

/-- The scratch batch after the month pipeline of `main`
(dates, identifier inference, amount reconciliation). -/
def cx6Batch : List Check :=
  reconcile_amounts (infer_missing_check_numbers (fix_missing_dates [cx6Check]))

/-- The scratch batch's summary. -/
def cx6Summary : MonthSummary := compute_month_summary (txt "Scratch") cx6Batch

/-- A record with no recognised date and no dated predecessor. -/
def cx5 : Check :=
  { check_number := txt "0200000001", date := [],
    vendor_name := txt "VENDOR Y", fund_object := txt "01-5803",
    amount := 10, cancelled := false, page := 2, sub_lines := [] }

/-- A dated record followed by an undated one, for the C5 witness. -/
def cx5b : Check := { cx5 with check_number := txt "0200000002", date := txt "08/02/2025" }

/-- A page-1 record for the C8 witness. -/
def cx8a : Check :=
  { check_number := txt "0200000010", date := txt "09/01/2025",
    vendor_name := txt "VENDOR P", fund_object := txt "01-5803",
    amount := 0, cancelled := false, page := 1, sub_lines := [] }

/-- The 400 DPI re-read of page 1 for the C8 witness: two records. -/
def cx8retry : List Check :=
  [{ cx8a with check_number := txt "0200000010" },
   { cx8a with check_number := txt "0200000011" }]

/-- All records before escalation for the C8 witness. -/
def cx8all : List Check := [cx8a]

/-- A token at the origin reading `A`. -/
def tok9A : Token := { x := 0, y := 0, w := 5, h := 5, conf := 0, text := txt "A" }

/-- A token at the same position reading `B`. -/
def tok9B : Token := { x := 0, y := 0, w := 5, h := 5, conf := 0, text := txt "B" }

/-- Two tokens at distinct positions for the C9 witness. -/
def tok9C : Token := { x := 7, y := 0, w := 5, h := 5, conf := 0, text := txt "C" }

/-- A batch whose resolved identifiers are unique but out of order. -/
def cx4In : List Check :=
  [numbered "0200000002", numbered "0200000001", numbered "_MISSING_"]

/-- A strictly increasing batch with one placeholder in a gap of 2. -/
def cx4Sorted : List Check :=
  [numbered "0200000001", numbered "_MISSING_", numbered "0200000003"]

/-- A batch whose placeholder has only a preceding numeric neighbour. -/
def cx3In : List Check := [numbered "0200000001", numbered "_MISSING_"]

/-- A single placeholder between neighbours at numeric distance 2. -/
def cx3W : List Check :=
  [numbered "0200000005", numbered "_MISSING_", numbered "0200000007"]

end PipelineInputs

section NumeralLemmas

theorem digitsVal_append (l₁ l₂ : Str) :
    digitsVal (l₁ ++ l₂) = (l₂.foldl (fun a c => 10 * a + charVal c) (digitsVal l₁)) := by
  simp [digitsVal, List.foldl_append]

theorem natToStrAux_spec : ∀ (fuel n : Nat), n < 10 ^ fuel →
    ∀ a : Nat, (natToStrAux fuel n).foldl (fun a c => 10 * a + charVal c) a =
      a * 10 ^ (natToStrAux fuel n).length + n := by
  intro fuel
  induction fuel with
  | zero => intro n hn a; interval_cases n; simp [natToStrAux]
  | succ fuel ih =>
    intro n hn a
    by_cases h0 : n = 0
    · simp [natToStrAux, h0]
    · have hdiv : n / 10 < 10 ^ fuel := by
        have := (Nat.div_lt_iff_lt_mul (by norm_num : (0:Nat) < 10)).2
          (by rw [pow_succ] at hn; exact hn)
        exact this
      have hrec := ih (n / 10) hdiv a
      have hd : charVal (Nat.digitChar (n % 10)) = n % 10 := by
        have h10 : n % 10 < 10 := Nat.mod_lt _ (by norm_num)
        interval_cases h : n % 10 <;> decide
      have hstep : natToStrAux (fuel + 1) n =
          natToStrAux fuel (n / 10) ++ [Nat.digitChar (n % 10)] := by
        simp [natToStrAux, h0]
      rw [hstep, List.foldl_append, List.length_append]
      simp only [List.foldl_cons, List.foldl_nil, List.length_cons, List.length_nil]
      rw [hrec, hd, pow_succ]
      have := Nat.div_add_mod n 10
      ring_nf
      omega

theorem natToStrAux_all_digits : ∀ (fuel n : Nat), (natToStrAux fuel n).all isDigitCh = true := by
  intro fuel
  induction fuel with
  | zero => intro n; simp [natToStrAux]
  | succ fuel ih =>
    intro n
    by_cases h0 : n = 0
    · simp [natToStrAux, h0]
    · have h10 : n % 10 < 10 := Nat.mod_lt _ (by norm_num)
      have hd : isDigitCh (Nat.digitChar (n % 10)) = true := by
        interval_cases h : n % 10 <;> decide
      have hstep : natToStrAux (fuel + 1) n =
          natToStrAux fuel (n / 10) ++ [Nat.digitChar (n % 10)] := by
        simp [natToStrAux, h0]
      rw [hstep]
      simp [List.all_append, ih (n / 10), hd]

theorem natToStrAux_ne_nil (fuel n : Nat) (h0 : n ≠ 0) (hf : fuel ≠ 0) :
    natToStrAux fuel n ≠ [] := by
  cases fuel with
  | zero => exact absurd rfl hf
  | succ fuel => simp [natToStrAux, h0]

theorem natToStr_all_digits (n : Nat) : (natToStr n).all isDigitCh = true := by
  by_cases h0 : n = 0
  · simp [natToStr, h0]; decide
  · simp only [natToStr, if_neg h0]; exact natToStrAux_all_digits _ _

theorem natToStr_ne_nil (n : Nat) : natToStr n ≠ [] := by
  by_cases h0 : n = 0
  · simp [natToStr, h0]
  · simp only [natToStr, if_neg h0]
    exact natToStrAux_ne_nil _ _ h0 (Nat.succ_ne_zero n)

theorem digitsVal_natToStr (n : Nat) : digitsVal (natToStr n) = n := by
  by_cases h0 : n = 0
  · simp [natToStr, h0, digitsVal, charVal]
  · have hn : n < 10 ^ (n + 1) := by
      calc n < 10 ^ n := Nat.lt_pow_self (by norm_num) n
      _ ≤ 10 ^ (n + 1) := Nat.pow_le_pow_right (by norm_num) (Nat.le_succ n)
    have := natToStrAux_spec (n + 1) n hn 0
    simpa [natToStr, if_neg h0, digitsVal] using this

theorem digitsVal_zfill (w : Nat) (s : Str) : digitsVal (zfill w s) = digitsVal s := by
  have : ∀ k : Nat, digitsVal (List.replicate k '0') = 0 := by
    intro k
    induction k with
    | zero => simp [digitsVal]
    | succ k ih =>
      simp only [List.replicate_succ, digitsVal, List.foldl_cons] at *
      simpa [charVal] using ih
  rw [zfill, digitsVal_append, this]
  rfl

theorem parseNat_zfill_natToStr (w n : Nat) : parseNat (zfill w (natToStr n)) = some n := by
  have hne : zfill w (natToStr n) ≠ [] := by
    simp only [zfill]
    intro h
    rcases List.append_eq_nil.1 h with ⟨-, h2⟩
    exact natToStr_ne_nil n h2
  have hall : (zfill w (natToStr n)).all isDigitCh = true := by
    simp only [zfill, List.all_append, Bool.and_eq_true]
    constructor
    · simp only [List.all_eq_true]
      intro c hc
      rw [List.eq_of_mem_replicate hc]
      decide
    · exact natToStr_all_digits n
  rw [parseNat, if_pos ⟨hne, hall⟩, digitsVal_zfill, digitsVal_natToStr]

end NumeralLemmas

section MoneyLemmas

theorem roundHalfEven_intCast (z : ℤ) : roundHalfEven (z : ℚ) = z := by
  simp only [roundHalfEven, Int.floor_intCast]
  norm_num

theorem round2_cents (z : ℤ) : round2 ((z : ℚ) / 100) = (z : ℚ) / 100 := by
  have h : ((z : ℚ) / 100) * 100 = (z : ℚ) := by field_simp
  rw [round2, h, roundHalfEven_intCast]

theorem round2_eq_self {q : ℚ} (h : IsCents q) : round2 q = q := by
  rcases h with ⟨z, rfl⟩
  exact round2_cents z

theorem IsCents.add {a b : ℚ} (ha : IsCents a) (hb : IsCents b) : IsCents (a + b) := by
  rcases ha with ⟨x, rfl⟩; rcases hb with ⟨y, rfl⟩
  exact ⟨x + y, by push_cast; ring⟩

theorem IsCents.sub {a b : ℚ} (ha : IsCents a) (hb : IsCents b) : IsCents (a - b) := by
  rcases ha with ⟨x, rfl⟩; rcases hb with ⟨y, rfl⟩
  exact ⟨x - y, by push_cast; ring⟩

theorem IsCents.zero : IsCents 0 := ⟨0, by norm_num⟩

theorem IsCents.sum {l : List ℚ} (h : ∀ q ∈ l, IsCents q) : IsCents l.sum := by
  induction l with
  | nil => simpa using IsCents.zero
  | cons a t ih =>
      rw [List.sum_cons]
      exact (h a (List.mem_cons_self a t)).add (ih fun q hq => h q (List.mem_cons_of_mem a hq))

end MoneyLemmas

section ClaimC2

open ParseCheckRegister

/-- Amounts after `reconcile_amounts` for a non-cancelled record with more
than one sub-line: a nonzero assembled amount is kept as is, and only a
zero amount is replaced by the rounded sub-line sum. -/
theorem reconcile_multiline_amount (checks : List Check) (i : Nat)
    (hi : i < checks.length)
    (hcan : (checks.getD i default).cancelled = false)
    (hml : 1 < (checks.getD i default).sub_lines.length) :
    ((reconcile_amounts checks).getD i default).amount =
      if (checks.getD i default).amount ≠ 0 then (checks.getD i default).amount
      else round2 (((checks.getD i default).sub_lines.map SubLine.exp_amount).sum) := by
  have hlen : i < (reconcile_amounts checks).length := by
    simpa [reconcile_amounts] using hi
  have hstep : (reconcile_amounts checks).getD i default
      = reconcileOne (checks.getD i default) := by
    rw [List.getD_eq_getElem _ _ hlen, List.getD_eq_getElem _ _ hi]
    simp [reconcile_amounts]
  rw [hstep, reconcileOne, hcan]
  simp only [Bool.false_eq_true, if_false, if_pos hml]
  by_cases hz : (checks.getD i default).amount = 0
  · rw [if_pos hz, if_neg (by simpa using hz)]
  · rw [if_neg hz, if_pos hz]

theorem getLast?_some_mem {α : Type} : ∀ (l : List α) (a : α), l.getLast? = some a → a ∈ l
  | [], _, h => by simp at h
  | [x], a, h => by
      have hx : x = a := by simpa using h
      simp [hx]
  | x :: y :: ys, a, h => by
      rw [List.getLast?_cons_cons] at h
      exact List.mem_cons_of_mem x (getLast?_some_mem (y :: ys) a h)

theorem totalsOf_ne_zero (rfs : List RowFields) : ∀ v ∈ totalsOf rfs, v ≠ 0 := by
  intro v hv
  rcases List.mem_filterMap.1 hv with ⟨rf, -, hr⟩
  unfold rowTotal at hr
  cases hca : rf.check_amt with
  | none => rw [hca] at hr; exact Option.noConfusion hr
  | some u =>
      rw [hca] at hr
      dsimp only at hr
      by_cases hu : u = 0
      · rw [if_pos hu] at hr; exact Option.noConfusion hr
      · rw [if_neg hu] at hr
        rw [← Option.some_injective _ hr]
        exact hu

theorem totalsOf_cons (rf : RowFields) (rest : List RowFields) :
    totalsOf (rf :: rest) = (rowTotal rf).toList ++ totalsOf rest := by
  unfold totalsOf
  rw [List.filterMap_cons]
  cases rowTotal rf <;> rfl

theorem appendSubLine_amount (c : Check) (rf : RowFields) :
    (appendSubLine c rf).amount = c.amount := by
  unfold appendSubLine
  cases rf.fd_objt with
  | none => rfl
  | some fd =>
      cases rf.exp_amt with
      | none => rfl
      | some e => by_cases he : e = 0 <;> simp [he]

theorem appendSubLine_cancelled (c : Check) (rf : RowFields) :
    (appendSubLine c rf).cancelled = c.cancelled := by
  unfold appendSubLine
  cases rf.fd_objt with
  | none => rfl
  | some fd =>
      cases rf.exp_amt with
      | none => rfl
      | some e => by_cases he : e = 0 <;> simp [he]

theorem continueCheck_amount (c : Check) (rf : RowFields) :
    (continueCheck c rf).amount = (rowTotal rf).getD c.amount := by
  unfold continueCheck rowTotal
  cases rf.check_amt with
  | none => simpa using appendSubLine_amount c rf
  | some v =>
      by_cases hv : v = 0
      · simpa [hv] using appendSubLine_amount c rf
      · simp [hv]

theorem continueCheck_cancelled (c : Check) (rf : RowFields) :
    (continueCheck c rf).cancelled = c.cancelled := by
  unfold continueCheck
  cases rf.check_amt with
  | none => simpa using appendSubLine_cancelled c rf
  | some v =>
      by_cases hv : v = 0
      · simpa [hv] using appendSubLine_cancelled c rf
      · simpa [hv] using appendSubLine_cancelled c rf

theorem assemble_amount : ∀ (rfs : List RowFields) (c : Check),
    (rfs.foldl continueCheck c).amount = ((totalsOf rfs).getLast?).getD c.amount := by
  intro rfs
  induction rfs with
  | nil => intro c; simp [totalsOf]
  | cons rf rest ih =>
      intro c
      rw [List.foldl_cons, ih, totalsOf_cons]
      cases hrt : rowTotal rf with
      | none => simp [continueCheck_amount, hrt]
      | some v =>
          simp only [Option.toList_some, List.singleton_append]
          cases hL : totalsOf rest with
          | nil => simp [continueCheck_amount, hrt, hL]
          | cons x xs =>
              cases hy : (x :: xs).getLast? with
              | none => exact absurd (List.getLast?_eq_none_iff.1 hy) (by simp)
              | some y => simp [hL, List.getLast?_cons_cons, hy]

theorem assemble_cancelled : ∀ (rfs : List RowFields) (c : Check),
    (rfs.foldl continueCheck c).cancelled = c.cancelled := by
  intro rfs
  induction rfs with
  | nil => intro c; rfl
  | cons rf rest ih =>
      intro c
      rw [List.foldl_cons, ih, continueCheck_cancelled]

theorem pyOr_zero (x : ℚ) : pyOr x 0 = x := by
  unfold pyOr
  by_cases h : x = 0 <;> simp [h]

theorem seedCheck_cancelled (rf : RowFields) (page : Nat) :
    (seedCheck rf page).cancelled = rf.cancelled := by
  unfold seedCheck
  by_cases hb : rf.cancelled
  · simp [hb]
  · by_cases hf : rf.fd_objt.isSome
    · simp only [hb, Bool.false_eq_true, if_false, hf, if_true]
      by_cases hchk : 0 < pyOr (optAmt rf.check_amt) 0 <;>
        by_cases hexp : 0 < pyOr (optAmt rf.exp_amt) 0 <;>
          simp [hchk, hexp]
    · simp [hb, hf]

theorem seedCheck_amount (rf : RowFields) (page : Nat)
    (hcan : rf.cancelled = false) (hfd : rf.fd_objt.isSome = true) :
    (seedCheck rf page).amount =
      if 0 < optAmt rf.check_amt then optAmt rf.check_amt else optAmt rf.exp_amt := by
  unfold seedCheck
  simp only [hcan, Bool.false_eq_true, if_false, hfd, if_true, pyOr_zero]
  by_cases hchk : 0 < optAmt rf.check_amt <;>
    by_cases hexp : 0 < optAmt rf.exp_amt <;>
      simp [hchk, hexp]

/-- C3-unrelated helper: on a one-record batch, `reconcile_amounts`
reduces to `reconcileOne` on the record. -/
theorem reconcile_singleton (c : Check) :
    (reconcile_amounts [c]).getD 0 default = reconcileOne c := rfl

/-- C2, counterexample: the two rows of `cxC2` carry no Check Amount at
all — no explicit total is recognized — yet the assembled record's final
amount after `reconcile_amounts` is 40.00, the seeding row's line amount
stored at line 350, not `round(40.00 + 35.00, 2) = 75.00`. -/
theorem assembled_no_total_amount_ne_sum :
    cxC2.cancelled = false ∧ 1 < cxC2.sub_lines.length ∧
    rfC2a.check_amt = none ∧ rfC2b.check_amt = none ∧
    ((reconcile_amounts [cxC2]).getD 0 default).amount = 40 ∧
    ((reconcile_amounts [cxC2]).getD 0 default).amount ≠
      round2 ((cxC2.sub_lines.map SubLine.exp_amount).sum) := by
  have h40 : ((reconcile_amounts [cxC2]).getD 0 default).amount = 40 := by decide
  refine ⟨by decide, by decide, rfl, rfl, h40, ?_⟩
  have hsum : cxC2.sub_lines.map SubLine.exp_amount = [40, 35] := by decide
  rw [h40, hsum]
  have h75 : round2 (List.sum [(40 : ℚ), 35]) = 75 := by
    rw [show List.sum [(40 : ℚ), 35] = 75 by norm_num [List.sum_cons, List.sum_nil]]
    exact round2_eq_self ⟨7500, by norm_num⟩
  rw [h75]
  norm_num

/-- C2, amended: for a finalized, non-cancelled record assembled from a
seeding row and its continuation rows, with more than one sub_line, the
amount after `reconcile_amounts` is: the last explicit total recognized
on its rows when there is one; otherwise the seeding row's Check Amount
when positive; otherwise the seeding row's line amount when that is
nonzero (the assembler stores it in the amount field); and
`round(sum(sub_line amounts), 2)` only when the seeding row's line amount
is zero. -/
theorem reconcile_multiline_amount_amended (rf0 : RowFields) (page : Nat)
    (rfs : List RowFields)
    (hcan : rf0.cancelled = false) (hfd : rf0.fd_objt.isSome = true)
    (hml : 1 < (assembleCheck rf0 page rfs).sub_lines.length) :
    (∀ t, (totalsOf rfs).getLast? = some t →
      ((reconcile_amounts [assembleCheck rf0 page rfs]).getD 0 default).amount = t) ∧
    (totalsOf rfs = [] → 0 < optAmt rf0.check_amt →
      ((reconcile_amounts [assembleCheck rf0 page rfs]).getD 0 default).amount =
        optAmt rf0.check_amt) ∧
    (totalsOf rfs = [] → ¬ 0 < optAmt rf0.check_amt → optAmt rf0.exp_amt ≠ 0 →
      ((reconcile_amounts [assembleCheck rf0 page rfs]).getD 0 default).amount =
        optAmt rf0.exp_amt) ∧
    (totalsOf rfs = [] → ¬ 0 < optAmt rf0.check_amt → optAmt rf0.exp_amt = 0 →
      ((reconcile_amounts [assembleCheck rf0 page rfs]).getD 0 default).amount =
        round2 (((assembleCheck rf0 page rfs).sub_lines.map SubLine.exp_amount).sum)) := by
  have hcanc : (assembleCheck rf0 page rfs).cancelled = false := by
    have h1 : assembleCheck rf0 page rfs = rfs.foldl continueCheck (seedCheck rf0 page) := rfl
    rw [h1, assemble_cancelled, seedCheck_cancelled, hcan]
  have hamt : (assembleCheck rf0 page rfs).amount =
      ((totalsOf rfs).getLast?).getD (seedCheck rf0 page).amount :=
    assemble_amount rfs (seedCheck rf0 page)
  have hseed := seedCheck_amount rf0 page hcan hfd
  have hold := reconcile_multiline_amount [assembleCheck rf0 page rfs] 0
    (by simp) hcanc hml
  have hx : ([assembleCheck rf0 page rfs].getD 0 default) = assembleCheck rf0 page rfs := rfl
  rw [hx] at hold
  refine ⟨?_, ?_, ?_, ?_⟩
  · intro t ht
    have htne : t ≠ 0 := totalsOf_ne_zero rfs t (getLast?_some_mem _ _ ht)
    have hA : (assembleCheck rf0 page rfs).amount = t := by
      rw [hamt, ht, Option.getD_some]
    rw [hold, if_pos (by rw [hA]; exact htne), hA]
  · intro hnil hpos
    have hA : (assembleCheck rf0 page rfs).amount = optAmt rf0.check_amt := by
      rw [hamt, hnil, List.getLast?_nil, Option.getD_none, hseed, if_pos hpos]
    rw [hold, if_pos (by rw [hA]; exact ne_of_gt hpos), hA]
  · intro hnil hnpos hexp
    have hA : (assembleCheck rf0 page rfs).amount = optAmt rf0.exp_amt := by
      rw [hamt, hnil, List.getLast?_nil, Option.getD_none, hseed, if_neg hnpos]
    rw [hold, if_pos (by rw [hA]; exact hexp), hA]
  · intro hnil hnpos hexp
    have hA : (assembleCheck rf0 page rfs).amount = 0 := by
      rw [hamt, hnil, List.getLast?_nil, Option.getD_none, hseed, if_neg hnpos, hexp]
    rw [hold, if_neg (by rw [hA]; exact fun h => h rfl)]

/-- Witness for C2 at the concrete two-row record. -/
theorem reconcile_multiline_amount_amended_witness :
    rfC2a.cancelled = false ∧ rfC2a.fd_objt.isSome = true ∧
    1 < (assembleCheck rfC2a 3 [rfC2b]).sub_lines.length ∧
    ((∀ t, (totalsOf [rfC2b]).getLast? = some t →
      ((reconcile_amounts [assembleCheck rfC2a 3 [rfC2b]]).getD 0 default).amount = t) ∧
    (totalsOf [rfC2b] = [] → 0 < optAmt rfC2a.check_amt →
      ((reconcile_amounts [assembleCheck rfC2a 3 [rfC2b]]).getD 0 default).amount =
        optAmt rfC2a.check_amt) ∧
    (totalsOf [rfC2b] = [] → ¬ 0 < optAmt rfC2a.check_amt → optAmt rfC2a.exp_amt ≠ 0 →
      ((reconcile_amounts [assembleCheck rfC2a 3 [rfC2b]]).getD 0 default).amount =
        optAmt rfC2a.exp_amt) ∧
    (totalsOf [rfC2b] = [] → ¬ 0 < optAmt rfC2a.check_amt → optAmt rfC2a.exp_amt = 0 →
      ((reconcile_amounts [assembleCheck rfC2a 3 [rfC2b]]).getD 0 default).amount =
        round2 (((assembleCheck rfC2a 3 [rfC2b]).sub_lines.map SubLine.exp_amount).sum))) :=
  ⟨by decide, by decide, by decide,
    reconcile_multiline_amount_amended rfC2a 3 [rfC2b] (by decide) (by decide) (by decide)⟩

end ClaimC2

section ClaimC7

open ParseCheckRegister

theorem scenarioABatch_eq : scenarioABatch = [sA1, sA2, sA4] := by decide

theorem scenarioASummary_fields :
    scenarioASummary.ocr_gross_total = 175 ∧ scenarioASummary.ocr_cancel_total = 50 ∧
    scenarioASummary.ocr_net_total = 175 ∧ scenarioASummary.missing_check_numbers = [] := by
  have hact : scenarioABatch.filter (fun c => ¬ c.cancelled) = [sA1, sA4] := by decide
  have hcanc : scenarioABatch.filter (fun c => c.cancelled) = [sA2] := by decide
  have hgaps : detect_check_gaps scenarioABatch = [] := by decide
  have hamts : ([sA1, sA4].map Check.amount) = [100, 75] := by decide
  have hamtc : ([sA2].map Check.amount) = [50] := by decide
  have hsum : ((100 : ℚ) + (75 + 0)) = 175 := by norm_num
  have h175 : round2 (175 : ℚ) = 175 := round2_eq_self ⟨17500, by norm_num⟩
  have h50 : round2 ((50 : ℚ) + 0) = 50 := by
    rw [show ((50 : ℚ) + 0) = 50 by norm_num]
    exact round2_eq_self ⟨5000, by norm_num⟩
  refine ⟨?_, ?_, ?_, ?_⟩ <;>
    simp only [scenarioASummary, compute_month_summary, hact, hcanc, hgaps, hamts, hamtc,
      List.sum_cons, List.sum_nil, hsum, h175, h50]

/-- C7, counterexample: on the Scenario A batch the geometric summary does
not have gross_total 225.00 nor missing-id list ["S-0003"]: the code's
gross total sums only non-cancelled records (175.00) and `S-`-prefixed
identifiers belong to no recognized numbering series, so no gap is
reported. -/
theorem scenarioA_expected_values_fail :
    ¬ (scenarioASummary.ocr_gross_total = 225 ∧ scenarioASummary.ocr_cancel_total = 50 ∧
       scenarioASummary.ocr_net_total = 175 ∧
       scenarioASummary.missing_check_numbers = [txt "S-0003"]) := by
  intro h
  have h175 := scenarioASummary_fields.1
  rw [h.1] at h175
  norm_num at h175

/-- C7, amended: on the Scenario A batch the geometric
`compute_month_summary` yields gross_total = 175.00 (non-cancelled records
only), cancel_total = 50.00, net_total = 175.00, and an empty missing-id
list (the `S-` series is not a recognized numbering series). -/
theorem scenarioA_actual_values :
    scenarioASummary.ocr_gross_total = 175 ∧ scenarioASummary.ocr_cancel_total = 50 ∧
    scenarioASummary.ocr_net_total = 175 ∧ scenarioASummary.missing_check_numbers = [] :=
  scenarioASummary_fields

end ClaimC7

section ClaimC1

/-- C1, counterexample: the geometric parser's summary violates
`net_total = gross_total - cancel_total` as soon as a cancelled record is
present: on a batch with one active 100.00 record and one cancelled 50.00
record it reports net_total = 100.00 but gross_total - cancel_total =
50.00 (the source sets `net_total = gross_total`). -/
theorem net_total_identity_fails_geometric :
    cx1Summary.ocr_net_total ≠ cx1Summary.ocr_gross_total - cx1Summary.ocr_cancel_total := by
  have hact : ([cx1A, cx1B].filter (fun c => ¬ c.cancelled)) = [cx1A] := by decide
  have hcanc : ([cx1A, cx1B].filter (fun c => c.cancelled)) = [cx1B] := by decide
  have hamts : ([cx1A].map Check.amount) = [100] := by decide
  have hamtc : ([cx1B].map Check.amount) = [50] := by decide
  have h100 : round2 ((100 : ℚ) + 0) = 100 := by
    rw [show ((100 : ℚ) + 0) = 100 by norm_num]
    exact round2_eq_self ⟨10000, by norm_num⟩
  have h50 : round2 ((50 : ℚ) + 0) = 50 := by
    rw [show ((50 : ℚ) + 0) = 50 by norm_num]
    exact round2_eq_self ⟨5000, by norm_num⟩
  simp only [cx1Summary, ParseCheckRegister.compute_month_summary, hact, hcanc, hamts, hamtc,
    List.sum_cons, List.sum_nil, h100, h50]
  norm_num

/-- C1, amended: for batches whose record amounts are whole numbers of
cents, the re-OCR parser's summary satisfies
`net_total = gross_total - cancel_total` exactly; the geometric parser's
summary instead satisfies `net_total = gross_total`, so there the claimed
identity holds precisely when the cancel total is zero. -/
theorem net_total_identity_amended (month : Str) (checks : List Check)
    (stats : List ReocrCheckRegister.PageStat)
    (hc : ∀ c ∈ checks, IsCents c.amount) :
    (ReocrCheckRegister.compute_month_summary month checks stats).ocr_net_total =
      (ReocrCheckRegister.compute_month_summary month checks stats).ocr_gross_total -
      (ReocrCheckRegister.compute_month_summary month checks stats).ocr_cancel_total ∧
    (ParseCheckRegister.compute_month_summary month checks).ocr_net_total =
      (ParseCheckRegister.compute_month_summary month checks).ocr_gross_total ∧
    ((ParseCheckRegister.compute_month_summary month checks).ocr_cancel_total = 0 →
      (ParseCheckRegister.compute_month_summary month checks).ocr_net_total =
        (ParseCheckRegister.compute_month_summary month checks).ocr_gross_total -
        (ParseCheckRegister.compute_month_summary month checks).ocr_cancel_total) := by
  have hsub : ∀ p : Check → Bool, IsCents (((checks.filter p).map Check.amount).sum) := by
    intro p
    refine IsCents.sum ?_
    intro q hq
    rcases List.mem_map.1 hq with ⟨c, hcmem, rfl⟩
    exact hc c (List.mem_of_mem_filter hcmem)
  constructor
  · simp only [ReocrCheckRegister.compute_month_summary]
    rw [round2_eq_self ((hsub _).sub (hsub _)), round2_eq_self (hsub _),
      round2_eq_self (hsub _)]
  · constructor
    · simp only [ParseCheckRegister.compute_month_summary]
    · intro h0
      simp only [ParseCheckRegister.compute_month_summary] at h0 ⊢
      rw [h0, sub_zero]

/-- Witness for C1 on a concrete cent-valued batch. -/
theorem net_total_identity_amended_witness :
    (∀ c ∈ [cx1A, cx1B], IsCents c.amount) ∧
    ((ReocrCheckRegister.compute_month_summary (txt "Scratch") [cx1A, cx1B] []).ocr_net_total =
      (ReocrCheckRegister.compute_month_summary (txt "Scratch") [cx1A, cx1B] []).ocr_gross_total -
      (ReocrCheckRegister.compute_month_summary (txt "Scratch") [cx1A, cx1B] []).ocr_cancel_total ∧
    (ParseCheckRegister.compute_month_summary (txt "Scratch") [cx1A, cx1B]).ocr_net_total =
      (ParseCheckRegister.compute_month_summary (txt "Scratch") [cx1A, cx1B]).ocr_gross_total ∧
    ((ParseCheckRegister.compute_month_summary (txt "Scratch") [cx1A, cx1B]).ocr_cancel_total = 0 →
      (ParseCheckRegister.compute_month_summary (txt "Scratch") [cx1A, cx1B]).ocr_net_total =
        (ParseCheckRegister.compute_month_summary (txt "Scratch") [cx1A, cx1B]).ocr_gross_total -
        (ParseCheckRegister.compute_month_summary (txt "Scratch") [cx1A, cx1B]).ocr_cancel_total)) := by
  have hcents : ∀ c ∈ [cx1A, cx1B], IsCents c.amount := by
    intro c hcm
    rcases List.mem_cons.1 hcm with rfl | hcm
    · exact ⟨10000, by norm_num [cx1A]⟩
    · rcases List.mem_cons.1 hcm with rfl | hcm
      · exact ⟨5000, by norm_num [cx1B]⟩
      · simp at hcm
  exact ⟨hcents, net_total_identity_amended (txt "Scratch") [cx1A, cx1B] [] hcents⟩

end ClaimC1

section ClaimC6

open ParseCheckRegister

theorem cx6Batch_eq : cx6Batch = [cx6Check] := by decide

/-- C6, counterexample: a batch that keeps an unresolved placeholder
identifier still gets the PASS verdict, because the verdict in `main`
tests only that every summary's percentage difference is below 2. -/
theorem verdict_ignores_placeholders :
    final_verdict [cx6Summary] = txt "PASS" ∧
    (cx6Batch.filter (fun c => c.check_number = MISSING)).length = 1 := by
  have hexp : COVER_LETTER_TOTALS (txt "Scratch") = 0 := by decide
  have hpct : cx6Summary.pct_difference = 0 := by
    simp only [cx6Summary, compute_month_summary, hexp, ne_eq, not_true_eq_false,
      if_false]
    exact round2_eq_self ⟨0, by norm_num⟩
  constructor
  · simp only [final_verdict, List.all_cons, List.all_nil, hpct, Bool.and_true]
    norm_num
  · decide

/-- C6, amended: in both parsers the final verdict is PASS exactly when
every batch summary's percentage difference is below the fixed tolerance
of 2; unresolved placeholder identifiers play no part in the verdict. -/
theorem verdict_iff_pct_within_tolerance (gs : List ParseCheckRegister.MonthSummary)
    (rs : List ReocrCheckRegister.MonthSummary) :
    (ParseCheckRegister.final_verdict gs = txt "PASS" ↔ ∀ s ∈ gs, s.pct_difference < 2) ∧
    (ReocrCheckRegister.final_verdict rs = txt "PASS" ↔ ∀ s ∈ rs, s.pct_difference < 2) := by
  constructor
  · simp only [ParseCheckRegister.final_verdict]
    split
    next h =>
      simp only [List.all_eq_true, decide_eq_true_eq] at h
      exact iff_of_true rfl h
    next h =>
      simp only [List.all_eq_true, decide_eq_true_eq] at h
      exact iff_of_false (by decide) h
  · simp only [ReocrCheckRegister.final_verdict]
    split
    next h =>
      simp only [List.all_eq_true, decide_eq_true_eq] at h
      exact iff_of_true rfl h
    next h =>
      simp only [List.all_eq_true, decide_eq_true_eq] at h
      exact iff_of_false (by decide) h

end ClaimC6

section ClaimC5

open ParseCheckRegister

theorem fixGo_length : ∀ (cs : List Check) (last : Str), (fixGo last cs).length = cs.length := by
  intro cs
  induction cs with
  | nil => intro last; rfl
  | cons c rest ih =>
      intro last
      by_cases hd : c.date ≠ []
      · simp [fixGo, hd, ih]
      · simp [fixGo, hd, ih]

theorem fixGo_getD_date : ∀ (cs : List Check) (last : Str) (i : Nat), i < cs.length →
    ((fixGo last cs).getD i default).date =
      lastNonEmptyFrom last ((cs.take (i + 1)).map Check.date) := by
  intro cs
  induction cs with
  | nil => intro last i hi; simp at hi
  | cons c rest ih =>
      intro last i hi
      cases i with
      | zero =>
          by_cases hd : c.date = []
          · simp [fixGo, hd, lastNonEmptyFrom]
          · simp [fixGo, hd, lastNonEmptyFrom]
      | succ i =>
          have hi' : i < rest.length := by simpa using hi
          by_cases hd : c.date = []
          · have := ih last i hi'
            simpa [fixGo, hd, lastNonEmptyFrom] using this
          · have := ih c.date i hi'
            simpa [fixGo, hd, lastNonEmptyFrom] using this

theorem lastNonEmptyFrom_of_last_ne : ∀ (ds : List Str) (last : Str), last ≠ [] →
    lastNonEmptyFrom last ds ≠ [] := by
  intro ds
  induction ds with
  | nil => intro last h; simpa [lastNonEmptyFrom] using h
  | cons d rest ih =>
      intro last h
      by_cases hd : d = []
      · simpa [lastNonEmptyFrom, hd] using ih last h
      · simpa [lastNonEmptyFrom, hd] using ih d hd

theorem lastNonEmptyFrom_of_mem : ∀ (ds : List Str) (last : Str),
    (∃ d ∈ ds, d ≠ []) → lastNonEmptyFrom last ds ≠ [] := by
  intro ds
  induction ds with
  | nil => intro last h; simp at h
  | cons d rest ih =>
      intro last h
      by_cases hd : d = []
      · rcases h with ⟨e, he, hne⟩
        rcases List.mem_cons.1 he with rfl | he
        · exact absurd hd hne
        · simpa [lastNonEmptyFrom, hd] using ih last ⟨e, he, hne⟩
      · simpa [lastNonEmptyFrom, hd] using lastNonEmptyFrom_of_last_ne rest d hd

/-- C5, amended: after `fix_missing_dates`, the i-th record's date is the
last non-empty date among the first i + 1 original dates (so a record
lacking a date inherits the nearest preceding non-empty one); the date is
guaranteed non-empty only when some record up to position i carried a
date — a record preceded by no dated record keeps an empty date. -/
theorem fix_missing_dates_carry_forward (checks : List Check) (i : Nat)
    (hi : i < checks.length) :
    (fix_missing_dates checks).length = checks.length ∧
    ((fix_missing_dates checks).getD i default).date =
      lastNonEmptyFrom [] ((checks.take (i + 1)).map Check.date) ∧
    ((∃ j, j ≤ i ∧ (checks.getD j default).date ≠ []) →
      ((fix_missing_dates checks).getD i default).date ≠ []) := by
  refine ⟨fixGo_length checks [], fixGo_getD_date checks [] i hi, ?_⟩
  rintro ⟨j, hji, hjd⟩
  simp only [fix_missing_dates]
  rw [fixGo_getD_date checks [] i hi]
  refine lastNonEmptyFrom_of_mem _ _ ⟨(checks.getD j default).date, ?_, hjd⟩
  have hjlen : j < checks.length := lt_of_le_of_lt hji hi
  have hjtake : j < (checks.take (i + 1)).length := by
    simp only [List.length_take]
    omega
  refine List.mem_map.2 ⟨(checks.take (i + 1)).get ⟨j, hjtake⟩, List.get_mem _ _ _, ?_⟩
  rw [List.getD_eq_getElem _ _ hjlen]
  simp [List.getElem_take]

/-- C5, counterexample: when the first record lacks a date there is no
preceding non-empty date to inherit, and the record keeps an empty date
after `fix_missing_dates` — the claimed "no finalized record has an empty
date field" fails. -/
theorem fix_missing_dates_empty_remains :
    ¬ (∀ c ∈ fix_missing_dates [cx5], c.date ≠ []) := by decide

/-- Witness for C5 at a concrete two-record batch. -/
theorem fix_missing_dates_carry_forward_witness :
    1 < ([cx5b, cx5] : List Check).length ∧
    ((fix_missing_dates [cx5b, cx5]).length = ([cx5b, cx5] : List Check).length ∧
    ((fix_missing_dates [cx5b, cx5]).getD 1 default).date =
      lastNonEmptyFrom [] (([cx5b, cx5].take 2).map Check.date) ∧
    ((∃ j, j ≤ 1 ∧ (([cx5b, cx5] : List Check).getD j default).date ≠ []) →
      ((fix_missing_dates [cx5b, cx5]).getD 1 default).date ≠ [])) :=
  ⟨by decide, fix_missing_dates_carry_forward [cx5b, cx5] 1 (by decide)⟩

end ClaimC5

section ClaimC8

open ReocrCheckRegister

theorem dedupGo_keys_spec : ∀ (l : List Check) (seen : List (Str × Str × ℚ)),
    ((dedupGo seen l).map dedupKey).Nodup ∧
    ∀ k ∈ (dedupGo seen l).map dedupKey, k ∉ seen := by
  intro l
  induction l with
  | nil => intro seen; simp [dedupGo]
  | cons c rest ih =>
      intro seen
      by_cases hc : dedupKey c ∈ seen
      · simpa [dedupGo, hc] using ih seen
      · have ihs := ih (dedupKey c :: seen)
        refine ⟨?_, ?_⟩
        · simp only [dedupGo, if_neg hc, List.map_cons, List.nodup_cons]
          refine ⟨fun hmem => ?_, ihs.1⟩
          exact (ihs.2 _ hmem) (List.mem_cons_self _ _)
        · intro k hk
          simp only [dedupGo, if_neg hc, List.map_cons, List.mem_cons] at hk
          rcases hk with rfl | hk
          · exact hc
          · exact fun hks => (ihs.2 k hk) (List.mem_cons_of_mem _ hks)

theorem deduplicate_checks_keys_nodup (l : List Check) :
    ((deduplicate_checks l).map dedupKey).Nodup :=
  (dedupGo_keys_spec l []).1

theorem filter_eq_self_of_page {p : Nat} {l : List Check} (h : ∀ c ∈ l, c.page = p) :
    l.filter (fun c => c.page = p) = l :=
  List.filter_eq_self.2 fun c hc => by simpa using h c hc

theorem filter_eq_nil_of_page {p : Nat} {l : List Check} (h : ∀ c ∈ l, c.page = p) :
    l.filter (fun c => c.page ≠ p) = [] :=
  List.filter_eq_nil_iff.2 fun c hc => by simpa using h c hc

theorem filter_ne_filter_eq_nil (l : List Check) (p : Nat) :
    (l.filter (fun c => c.page ≠ p)).filter (fun c => c.page = p) = [] :=
  List.filter_eq_nil_iff.2 fun c hc => by
    have := (List.mem_filter.1 hc).2
    simp at this ⊢
    exact this

theorem filter_ne_idem (l : List Check) (p : Nat) :
    (l.filter (fun c => c.page ≠ p)).filter (fun c => c.page ≠ p) =
      l.filter (fun c => c.page ≠ p) :=
  List.filter_eq_self.2 fun _ hc => (List.mem_filter.1 hc).2

/-- C8: per flagged page, escalation makes at most the two modelled
re-acquisition attempts (400 DPI full page, then merged deduplicated
half-pages); the page's record set is replaced by an attempted variant
only when that variant has strictly more records than the current set;
hence among the attempted variants the one with the most records wins,
ties keep the earlier variant, records of other pages are untouched, and
the merged half-page variant is deduplicated by identifier + fund-object
+ amount. -/
theorem retry_page_escalation_policy (all_checks : List Check) (page_num : Nat)
    (retry_checks top_checks bottom_checks : List Check)
    (hr : ∀ c ∈ retry_checks, c.page = page_num)
    (ht : ∀ c ∈ top_checks ++ bottom_checks, c.page = page_num) :
    (retry_page_step all_checks page_num retry_checks top_checks bottom_checks).filter
        (fun c => c.page ≠ page_num) =
      all_checks.filter (fun c => c.page ≠ page_num) ∧
    ((retry_page_step all_checks page_num retry_checks top_checks bottom_checks).filter
        (fun c => c.page = page_num) = all_checks.filter (fun c => c.page = page_num) ∨
     (retry_page_step all_checks page_num retry_checks top_checks bottom_checks).filter
        (fun c => c.page = page_num) = retry_checks ∨
     (retry_page_step all_checks page_num retry_checks top_checks bottom_checks).filter
        (fun c => c.page = page_num) = deduplicate_checks (top_checks ++ bottom_checks)) ∧
    ((retry_page_step all_checks page_num retry_checks top_checks bottom_checks).filter
        (fun c => c.page = page_num) ≠ all_checks.filter (fun c => c.page = page_num) →
      (all_checks.filter (fun c => c.page = page_num)).length <
        ((retry_page_step all_checks page_num retry_checks top_checks bottom_checks).filter
          (fun c => c.page = page_num)).length) ∧
    (∀ v ∈ (if (all_checks.filter (fun c => c.page = page_num)).length < retry_checks.length
            then [all_checks.filter (fun c => c.page = page_num), retry_checks]
            else [all_checks.filter (fun c => c.page = page_num), retry_checks,
                  deduplicate_checks (top_checks ++ bottom_checks)]),
      v.length ≤ ((retry_page_step all_checks page_num retry_checks top_checks bottom_checks).filter
          (fun c => c.page = page_num)).length) ∧
    (((retry_page_step all_checks page_num retry_checks top_checks bottom_checks).filter
        (fun c => c.page = page_num)).length =
        (all_checks.filter (fun c => c.page = page_num)).length →
      (retry_page_step all_checks page_num retry_checks top_checks bottom_checks).filter
        (fun c => c.page = page_num) = all_checks.filter (fun c => c.page = page_num)) ∧
    ((deduplicate_checks (top_checks ++ bottom_checks)).map dedupKey).Nodup := by
  have hcomb : ∀ c ∈ deduplicate_checks (top_checks ++ bottom_checks), c.page = page_num := by
    intro c hc
    have hsub : ∀ (l : List Check) (seen : List (Str × Str × ℚ)),
        (dedupGo seen l).Sublist l := by
      intro l
      induction l with
      | nil => intro seen; simp [dedupGo]
      | cons d rest ih =>
          intro seen
          by_cases hd : dedupKey d ∈ seen
          · simpa [dedupGo, hd] using List.Sublist.cons d (ih seen)
          · simpa [dedupGo, hd] using List.Sublist.cons₂ d (ih (dedupKey d :: seen))
    exact ht c ((hsub (top_checks ++ bottom_checks) []).mem hc)
  set original := all_checks.filter (fun c => c.page = page_num) with horig
  set F := all_checks.filter (fun c => c.page ≠ page_num) with hF
  by_cases h1 : retry_checks.length > original.length
  · have hres : retry_page_step all_checks page_num retry_checks top_checks bottom_checks
        = F ++ retry_checks := by
      simp only [retry_page_step, ← horig, ← hF, if_pos h1]
    have hkept : (F ++ retry_checks).filter (fun c => c.page = page_num) = retry_checks := by
      rw [List.filter_append, filter_ne_filter_eq_nil, filter_eq_self_of_page hr,
        List.nil_append]
    have hne : (F ++ retry_checks).filter (fun c => c.page ≠ page_num) = F := by
      rw [List.filter_append, filter_ne_idem, filter_eq_nil_of_page hr, List.append_nil]
    rw [hres, hkept, hne]
    refine ⟨rfl, Or.inr (Or.inl rfl), fun _ => h1, ?_, fun hl => absurd hl.symm (Nat.ne_of_lt h1),
      deduplicate_checks_keys_nodup _⟩
    rw [if_pos h1]
    intro v hv
    rcases List.mem_cons.1 hv with rfl | hv
    · exact Nat.le_of_lt h1
    · rcases List.mem_cons.1 hv with rfl | hv
      · exact Nat.le_refl _
      · simp at hv
  · by_cases h2 : (deduplicate_checks (top_checks ++ bottom_checks)).length > original.length
    · have hres : retry_page_step all_checks page_num retry_checks top_checks bottom_checks
          = F ++ deduplicate_checks (top_checks ++ bottom_checks) := by
        simp only [retry_page_step, ← horig, ← hF, if_neg h1, if_pos h2]
      have hkept : (F ++ deduplicate_checks (top_checks ++ bottom_checks)).filter
          (fun c => c.page = page_num) = deduplicate_checks (top_checks ++ bottom_checks) := by
        rw [List.filter_append, filter_ne_filter_eq_nil, filter_eq_self_of_page hcomb,
          List.nil_append]
      have hne : (F ++ deduplicate_checks (top_checks ++ bottom_checks)).filter
          (fun c => c.page ≠ page_num) = F := by
        rw [List.filter_append, filter_ne_idem, filter_eq_nil_of_page hcomb, List.append_nil]
      rw [hres, hkept, hne]
      refine ⟨rfl, Or.inr (Or.inr rfl), fun _ => h2, ?_,
        fun hl => absurd hl.symm (Nat.ne_of_lt h2), deduplicate_checks_keys_nodup _⟩
      rw [if_neg h1]
      intro v hv
      simp only [List.mem_cons, List.not_mem_nil, or_false] at hv
      rcases hv with rfl | rfl | rfl
      · exact Nat.le_of_lt h2
      · exact Nat.le_trans (Nat.le_of_not_lt h1) (Nat.le_of_lt h2)
      · exact Nat.le_refl _
    · have hres : retry_page_step all_checks page_num retry_checks top_checks bottom_checks
          = all_checks := by
        simp only [retry_page_step, ← horig, ← hF, if_neg h1, if_neg h2]
      rw [hres]
      refine ⟨rfl, Or.inl rfl, fun hne => absurd rfl hne, ?_, fun _ => rfl,
        deduplicate_checks_keys_nodup _⟩
      rw [if_neg h1]
      intro v hv
      simp only [List.mem_cons, List.not_mem_nil, or_false] at hv
      rcases hv with rfl | rfl | rfl
      · exact Nat.le_refl _
      · exact Nat.le_of_not_lt h1
      · exact Nat.le_of_not_lt h2

end ClaimC8

section ClaimC8Witness

open ReocrCheckRegister

/-- Witness for C8 at a concrete flagged page. -/
theorem retry_page_escalation_policy_witness :
    (∀ c ∈ cx8retry, c.page = 1) ∧ (∀ c ∈ ([] ++ [] : List Check), c.page = 1) ∧
    ((retry_page_step cx8all 1 cx8retry [] []).filter (fun c => c.page ≠ 1) =
      cx8all.filter (fun c => c.page ≠ 1) ∧
    ((retry_page_step cx8all 1 cx8retry [] []).filter (fun c => c.page = 1) =
        cx8all.filter (fun c => c.page = 1) ∨
     (retry_page_step cx8all 1 cx8retry [] []).filter (fun c => c.page = 1) = cx8retry ∨
     (retry_page_step cx8all 1 cx8retry [] []).filter (fun c => c.page = 1) =
        deduplicate_checks ([] ++ [])) ∧
    ((retry_page_step cx8all 1 cx8retry [] []).filter (fun c => c.page = 1) ≠
        cx8all.filter (fun c => c.page = 1) →
      (cx8all.filter (fun c => c.page = 1)).length <
        ((retry_page_step cx8all 1 cx8retry [] []).filter (fun c => c.page = 1)).length) ∧
    (∀ v ∈ (if (cx8all.filter (fun c => c.page = 1)).length < cx8retry.length
            then [cx8all.filter (fun c => c.page = 1), cx8retry]
            else [cx8all.filter (fun c => c.page = 1), cx8retry, deduplicate_checks ([] ++ [])]),
      v.length ≤ ((retry_page_step cx8all 1 cx8retry [] []).filter
          (fun c => c.page = 1)).length) ∧
    (((retry_page_step cx8all 1 cx8retry [] []).filter (fun c => c.page = 1)).length =
        (cx8all.filter (fun c => c.page = 1)).length →
      (retry_page_step cx8all 1 cx8retry [] []).filter (fun c => c.page = 1) =
        cx8all.filter (fun c => c.page = 1)) ∧
    ((deduplicate_checks ([] ++ [])).map dedupKey).Nodup) :=
  ⟨by decide, by decide,
    retry_page_escalation_policy cx8all 1 cx8retry [] [] (by decide) (by decide)⟩

end ClaimC8Witness

section ClaimC9

open ParseCheckRegister

theorem tokLe_of_ne_key {a b : Token} (hle : tokLe a b)
    (hne : (a.y, a.x) ≠ (b.y, b.x)) : tokLt a b := by
  have h : a.y ≠ b.y ∨ a.x ≠ b.x := by
    by_contra h
    push_neg at h
    exact hne (by rw [h.1, h.2])
  unfold tokLe at hle
  unfold tokLt
  omega

theorem sortTokens_sorted_strict (l : List Token)
    (hkeys : (l.map (fun t => (t.y, t.x))).Nodup) :
    List.Sorted tokLt (sortTokens l) := by
  have hsorted : List.Sorted tokLe (sortTokens l) := List.sorted_insertionSort tokLe l
  have hperm : (sortTokens l).Perm l := List.perm_insertionSort tokLe l
  have hkeys' : ((sortTokens l).map (fun t => (t.y, t.x))).Nodup :=
    (hperm.map (fun t => (t.y, t.x))).symm.nodup hkeys
  have hpw : (sortTokens l).Pairwise (fun a b => (a.y, a.x) ≠ (b.y, b.x)) :=
    (List.pairwise_map).1 hkeys'
  exact (hsorted.and hpw).imp fun h => tokLe_of_ne_key h.1 h.2

theorem sortTokens_perm_eq {l₁ l₂ : List Token} (hperm : l₁.Perm l₂)
    (hkeys : (l₁.map (fun t => (t.y, t.x))).Nodup) :
    sortTokens l₁ = sortTokens l₂ := by
  have hkeys₂ : (l₂.map (fun t => (t.y, t.x))).Nodup :=
    (hperm.map (fun t => (t.y, t.x))).nodup hkeys
  have hp : (sortTokens l₁).Perm (sortTokens l₂) :=
    ((List.perm_insertionSort tokLe l₁).trans hperm).trans
      (List.perm_insertionSort tokLe l₂).symm
  exact List.eq_of_perm_of_sorted hp (sortTokens_sorted_strict l₁ hkeys)
    (sortTokens_sorted_strict l₂ hkeys₂)

/-- C9, amended: `group_into_rows` is stable under token-order permutation
provided no two tokens share the same `(y, x)` position (Python's sort is
stable, so exact position ties keep input order and can differ between
permutations); under that proviso any two permutations of a token list
yield the identical sequence of rows. -/
theorem group_into_rows_perm_invariant (tol : Int) (l₁ l₂ : List Token)
    (hperm : l₁.Perm l₂)
    (hkeys : (l₁.map (fun t => (t.y, t.x))).Nodup) :
    group_into_rows tol l₁ = group_into_rows tol l₂ := by
  unfold group_into_rows
  rw [sortTokens_perm_eq hperm hkeys]

/-- C9, counterexample: two tokens at the identical `(y, x)` position keep
their input order through the stable sorts, so swapping them permutes the
token list yet changes the emitted row. -/
theorem group_into_rows_permutation_unstable :
    ([tok9A, tok9B] : List Token).Perm [tok9B, tok9A] ∧
    group_into_rows 20 [tok9A, tok9B] ≠ group_into_rows 20 [tok9B, tok9A] := by
  constructor
  · exact List.Perm.swap tok9B tok9A []
  · decide

/-- Witness for C9 at a concrete permuted pair with distinct positions. -/
theorem group_into_rows_perm_invariant_witness :
    ([tok9A, tok9C] : List Token).Perm [tok9C, tok9A] ∧
    (([tok9A, tok9C] : List Token).map (fun t => (t.y, t.x))).Nodup ∧
    group_into_rows 20 [tok9A, tok9C] = group_into_rows 20 [tok9C, tok9A] :=
  ⟨List.Perm.swap tok9C tok9A [], by decide,
    group_into_rows_perm_invariant 20 [tok9A, tok9C] [tok9C, tok9A]
      (List.Perm.swap tok9C tok9A []) (by decide)⟩

end ClaimC9

section InferMachinery

open ParseCheckRegister

theorem findSome?_eq_head?_filterMap {α β : Type} (f : α → Option β) :
    ∀ l : List α, l.findSome? f = (l.filterMap f).head? := by
  intro l
  induction l with
  | nil => rfl
  | cons a rest ih =>
      rw [List.findSome?_cons, List.filterMap_cons]
      cases h : f a with
      | none => simp only [h]; exact ih
      | some b => simp [h]

theorem zfill_length (w : Nat) (s : Str) : (zfill w s).length = max w s.length := by
  simp only [zfill, List.length_append, List.length_replicate]
  omega

theorem seriesOf_MISSING : seriesOf MISSING = none := by decide

theorem seriesOf_fmtAssigned_ddp (n : Nat) :
    seriesOf (fmtAssigned true n) = some (true, n) := by
  have hfmt : fmtAssigned true n = 'D' :: 'D' :: 'P' :: '-' :: zfill 8 (natToStr n) := rfl
  rw [hfmt, seriesOf]
  rw [if_neg (by simp [isDigitCh])]
  rw [parseNat_zfill_natToStr]
  rfl

theorem zfill_natToStr_all (w n : Nat) : (zfill w (natToStr n)).all isDigitCh = true := by
  simp only [zfill, List.all_append, Bool.and_eq_true]
  constructor
  · simp only [List.all_eq_true]
    intro c hc
    rw [List.eq_of_mem_replicate hc]
    decide
  · exact natToStr_all_digits n

theorem zfill_natToStr_ne_nil (w n : Nat) : zfill w (natToStr n) ≠ [] := by
  simp only [zfill]
  intro h
  rcases List.append_eq_nil.1 h with ⟨-, h2⟩
  exact natToStr_ne_nil n h2

theorem seriesOf_allDigits (s : Str) (hne : s ≠ []) (hall : s.all isDigitCh = true) :
    seriesOf s = if s.length = 10 then some (false, digitsVal s) else none := by
  by_cases hlen : s.length = 10
  · rw [if_pos hlen]
    unfold seriesOf
    rw [if_pos ⟨hlen, hall⟩, parseNat, if_pos ⟨hne, hall⟩]
    rfl
  · rw [if_neg hlen]
    unfold seriesOf
    rw [if_neg (fun hand => hlen hand.1)]
    cases s with
    | nil => exact absurd rfl hne
    | cons c cs =>
        have hc : isDigitCh c = true :=
          (List.all_eq_true.1 hall) c (List.mem_cons_self c cs)
        split
        next rest heq =>
          exfalso
          injection heq with h1 _
          rw [h1] at hc
          exact absurd hc (by decide)
        next => rfl

theorem seriesOf_fmtAssigned_snd (k : Bool) (n : Nat) :
    ∀ p, seriesOf (fmtAssigned k n) = some p → p = (k, n) := by
  intro p hp
  cases k with
  | true => rw [seriesOf_fmtAssigned_ddp] at hp; exact (Option.some_injective _ hp).symm
  | false =>
      have hfmt : fmtAssigned false n = zfill 10 (natToStr n) := rfl
      rw [hfmt, seriesOf_allDigits _ (zfill_natToStr_ne_nil 10 n) (zfill_natToStr_all 10 n)]
        at hp
      by_cases hlen : (zfill 10 (natToStr n)).length = 10
      · rw [if_pos hlen, digitsVal_zfill, digitsVal_natToStr] at hp
        exact (Option.some_injective _ hp).symm
      · rw [if_neg hlen] at hp
        exact Option.noConfusion hp

theorem numVal_fmtAssigned (k : Bool) (n : Nat) (c : Check) :
    numVal { c with check_number := fmtAssigned k n } = some n ∨
    numVal { c with check_number := fmtAssigned k n } = none := by
  unfold numVal
  cases hp : seriesOf (fmtAssigned k n) with
  | none => exact Or.inr rfl
  | some p =>
      left
      have hpn := seriesOf_fmtAssigned_snd k n p hp
      subst hpn
      rfl

theorem fmtAssigned_length (k : Bool) (n : Nat) : 10 ≤ (fmtAssigned k n).length := by
  cases k with
  | true =>
      have hfmt : fmtAssigned true n = txt "DDP-" ++ zfill 8 (natToStr n) := rfl
      have h4 : (txt "DDP-").length = 4 := by decide
      rw [hfmt, List.length_append, zfill_length, h4]
      omega
  | false =>
      have hfmt : fmtAssigned false n = zfill 10 (natToStr n) := rfl
      rw [hfmt, zfill_length]
      omega

theorem fmtAssigned_ne_MISSING (k : Bool) (n : Nat) : fmtAssigned k n ≠ MISSING := by
  intro h
  have hlen := congrArg List.length h
  have h9 : MISSING.length = 9 := by decide
  have h10 := fmtAssigned_length k n
  omega

theorem findBeforeNum_map_snd (cs : List Check) (idx : Nat) :
    (findBeforeNum cs idx).map Prod.snd = (resolvedVals (cs.take idx)).getLast? := by
  rw [findBeforeNum, findSome?_eq_head?_filterMap, List.filterMap_reverse, List.head?_reverse]
  rw [show resolvedVals (cs.take idx)
      = (List.filterMap (fun c => seriesOf c.check_number) (cs.take idx)).map Prod.snd by
    rw [List.map_filterMap]; rfl]
  rw [List.getLast?_map]

theorem findAfterNum_eq_head? (cs : List Check) (idx : Nat) :
    findAfterNum cs idx = (resolvedVals (cs.drop (idx + 1))).head? := by
  rw [findAfterNum, findSome?_eq_head?_filterMap]
  rw [show resolvedVals (cs.drop (idx + 1))
      = (List.filterMap (fun c => seriesOf c.check_number) (cs.drop (idx + 1))).map Prod.snd by
    rw [List.map_filterMap]; rfl]
  rw [List.head?_map]

theorem inferOne_length (cs : List Check) (idx : Nat) :
    (inferOne cs idx).length = cs.length := by
  unfold inferOne
  cases findBeforeNum cs idx with
  | none => rfl
  | some p =>
      obtain ⟨k, b⟩ := p
      cases findAfterNum cs idx with
      | none => simp [List.length_set]
      | some a =>
          by_cases hgap : (a : ℤ) - (b : ℤ) = 2
          · simp [hgap, List.length_set]
          · simp [hgap]

theorem inferOne_getD_ne (cs : List Check) (idx i : Nat) (hne : i ≠ idx) :
    (inferOne cs idx).getD i default = cs.getD i default := by
  have hset : ∀ c' : Check, (cs.set idx c').getD i default = cs.getD i default := by
    intro c'
    rw [List.getD_eq_getElem?_getD, List.getD_eq_getElem?_getD,
      List.getElem?_set_ne (fun h => hne h.symm)]
  unfold inferOne
  cases findBeforeNum cs idx with
  | none => rfl
  | some p =>
      obtain ⟨k, b⟩ := p
      cases findAfterNum cs idx with
      | none => exact hset _
      | some a =>
          by_cases hgap : (a : ℤ) - (b : ℤ) = 2
          · simp only [hgap, if_pos]; exact hset _
          · simp [hgap]

theorem inferOne_chassis (cs : List Check) (idx i : Nat) :
    chassis ((inferOne cs idx).getD i default) = chassis (cs.getD i default) := by
  by_cases hne : i = idx
  case neg => rw [inferOne_getD_ne cs idx i hne]
  subst hne
  by_cases hlen : i < cs.length
  case neg =>
    rw [List.getD_eq_getElem?_getD, List.getD_eq_getElem?_getD,
      List.getElem?_eq_none (Nat.le_of_not_lt hlen),
      List.getElem?_eq_none (by rw [inferOne_length]; exact Nat.le_of_not_lt hlen)]
  have hset : ∀ k n, chassis ((cs.set i
      { cs.getD i default with check_number := fmtAssigned k n }).getD i default) =
      chassis (cs.getD i default) := by
    intro k n
    rw [List.getD_eq_getElem?_getD, List.getElem?_set_self hlen, Option.getD_some]
    rfl
  unfold inferOne
  cases findBeforeNum cs i with
  | none => rfl
  | some p =>
      obtain ⟨k, b⟩ := p
      cases findAfterNum cs i with
      | none => exact hset _ _
      | some a =>
          by_cases hgap : (a : ℤ) - (b : ℤ) = 2
          · simp only [hgap, if_pos]; exact hset _ _
          · simp [hgap]

end InferMachinery

section ChainPreservation

open ParseCheckRegister

theorem resolvedVals_append (l₁ l₂ : List Check) :
    resolvedVals (l₁ ++ l₂) = resolvedVals l₁ ++ resolvedVals l₂ := by
  simp [resolvedVals, List.filterMap_append]

theorem resolvedVals_cons (c : Check) (l : List Check) :
    resolvedVals (c :: l) = (numVal c).toList ++ resolvedVals l := by
  rw [resolvedVals, List.filterMap_cons]
  cases numVal c <;> rfl

theorem resolvedVals_split (cs : List Check) (idx : Nat) (hlen : idx < cs.length)
    (hm : numVal (cs.getD idx default) = none) :
    resolvedVals cs = resolvedVals (cs.take idx) ++ resolvedVals (cs.drop (idx + 1)) := by
  conv_lhs => rw [← List.take_append_drop idx cs]
  rw [resolvedVals_append, List.drop_eq_getElem_cons hlen, resolvedVals_cons]
  have hm' : numVal cs[idx] = none := by
    rw [← List.getD_eq_getElem cs default hlen]
    exact hm
  rw [hm']
  rfl

theorem resolvedVals_set (cs : List Check) (idx : Nat) (hlen : idx < cs.length)
    (c' : Check) :
    resolvedVals (cs.set idx c') =
      resolvedVals (cs.take idx) ++ (numVal c').toList ++ resolvedVals (cs.drop (idx + 1)) := by
  rw [List.set_eq_take_append_cons_drop, if_pos hlen, resolvedVals_append, resolvedVals_cons]
  rw [List.append_assoc]

theorem inferOne_chain (cs : List Check) (idx : Nat) (hlen : idx < cs.length)
    (hm : numVal (cs.getD idx default) = none)
    (h : List.Chain' (· < ·) (resolvedVals cs)) :
    List.Chain' (· < ·) (resolvedVals (inferOne cs idx)) := by
  have hsplit := resolvedVals_split cs idx hlen hm
  rw [hsplit] at h
  obtain ⟨hB, hA, hlink⟩ := List.chain'_append.1 h
  unfold inferOne
  cases hbefore : findBeforeNum cs idx with
  | none =>
      rw [hsplit]
      exact h
  | some p =>
      obtain ⟨k, b⟩ := p
      have hlast : (resolvedVals (cs.take idx)).getLast? = some b := by
        rw [← findBeforeNum_map_snd, hbefore]
        rfl
      cases hafter : findAfterNum cs idx with
      | none =>
          have hAnil : resolvedVals (cs.drop (idx + 1)) = [] := by
            have hh := findAfterNum_eq_head? cs idx
            rw [hafter] at hh
            exact List.head?_eq_none_iff.1 hh.symm
          rw [resolvedVals_set cs idx hlen _]
          rcases numVal_fmtAssigned k (b + 1) (cs.getD idx default) with hv | hv
          · simp only [hv, Option.toList_some, hAnil, List.append_nil]
            refine List.chain'_append.2 ⟨hB, List.chain'_singleton _, ?_⟩
            intro x hx y hy
            rw [hlast] at hx
            simp only [Option.mem_def, Option.some.injEq] at hx
            simp only [List.head?_cons, Option.mem_def, Option.some.injEq] at hy
            omega
          · simp only [hv, Option.toList_none, List.append_nil, hAnil]
            exact hB
      | some a =>
          have hAhead : (resolvedVals (cs.drop (idx + 1))).head? = some a := by
            rw [← findAfterNum_eq_head?, hafter]
          by_cases hgap : (a : ℤ) - (b : ℤ) = 2
          · have hab : a = b + 2 := by omega
            simp only [if_pos hgap]
            rw [resolvedVals_set cs idx hlen _]
            rcases numVal_fmtAssigned k (b + 1) (cs.getD idx default) with hv | hv
            · simp only [hv, Option.toList_some]
              rw [List.append_assoc]
              refine List.chain'_append.2 ⟨hB, ?_, ?_⟩
              · rw [List.singleton_append]
                refine List.chain'_cons'.2 ⟨?_, hA⟩
                intro y hy
                rw [hAhead] at hy
                simp only [Option.mem_def, Option.some.injEq] at hy
                omega
              · intro x hx y hy
                rw [hlast] at hx
                simp only [Option.mem_def, Option.some.injEq] at hx
                rw [List.singleton_append, List.head?_cons] at hy
                simp only [Option.mem_def, Option.some.injEq] at hy
                omega
            · simp only [hv, Option.toList_none, List.append_nil]
              exact List.chain'_append.2 ⟨hB, hA, hlink⟩
          · simp only [if_neg hgap]
            rw [hsplit]
            exact h

end ChainPreservation

section ClaimC4

open ParseCheckRegister

theorem foldl_inferOne_chain : ∀ (idxs : List Nat) (cs : List Check),
    (∀ i ∈ idxs, i < cs.length ∧ numVal (cs.getD i default) = none) →
    idxs.Pairwise (· < ·) →
    List.Chain' (· < ·) (resolvedVals cs) →
    List.Chain' (· < ·) (resolvedVals (idxs.foldl inferOne cs)) := by
  intro idxs
  induction idxs with
  | nil => intro cs _ _ h; exact h
  | cons a rest ih =>
      intro cs hmem hpw h
      rw [List.foldl_cons]
      obtain ⟨haLen, haM⟩ := hmem a (List.mem_cons_self a rest)
      refine ih (inferOne cs a) ?_ (List.pairwise_cons.1 hpw).2
        (inferOne_chain cs a haLen haM h)
      intro i hi
      have hia : a < i := (List.pairwise_cons.1 hpw).1 i hi
      have hne : i ≠ a := Nat.ne_of_gt hia
      refine ⟨?_, ?_⟩
      · rw [inferOne_length]
        exact (hmem i (List.mem_cons_of_mem a hi)).1
      · rw [inferOne_getD_ne cs a i hne]
        exact (hmem i (List.mem_cons_of_mem a hi)).2

theorem mem_missingIndices {checks : List Check} {i : Nat} (h : i ∈ missingIndices checks) :
    i < checks.length ∧ (checks.getD i default).check_number = MISSING := by
  simp only [missingIndices, List.mem_filter, List.mem_range, decide_eq_true_eq] at h
  exact h

theorem missingIndices_pairwise (checks : List Check) :
    (missingIndices checks).Pairwise (· < ·) :=
  (List.pairwise_lt_range _).filter _

theorem numVal_of_MISSING {c : Check} (h : c.check_number = MISSING) : numVal c = none := by
  rw [numVal, h, seriesOf_MISSING]
  rfl

theorem resolvedVals_eq_map_resolvedIds (l : List Check) :
    resolvedVals l = (resolvedIds l).map (fun s => ((seriesOf s).map Prod.snd).getD 0) := by
  induction l with
  | nil => rfl
  | cons c rest ih =>
      cases hs : seriesOf c.check_number with
      | none => simpa [resolvedVals, resolvedIds, List.filterMap_cons, numVal, hs] using ih
      | some p => simpa [resolvedVals, resolvedIds, List.filterMap_cons, numVal, hs] using ih

theorem chain_lt_nodup {L : List Nat} (h : List.Chain' (· < ·) L) : L.Nodup :=
  (List.chain'_iff_pairwise.1 h).imp Nat.ne_of_lt

/-- C4, amended: when the resolved identifiers' numeric values are
strictly increasing in record order (which implies uniqueness within and
across the numbering series), that strict increase — and hence identifier
uniqueness — still holds after `infer_missing_check_numbers`: an inferred
value is strictly between its neighbours (or strictly above a final
preceding neighbour), so it can collide with nothing. -/
theorem infer_sorted_preserves_uniqueness (checks : List Check)
    (h : List.Chain' (· < ·) (resolvedVals checks)) :
    List.Chain' (· < ·) (resolvedVals (infer_missing_check_numbers checks)) ∧
    (resolvedIds (infer_missing_check_numbers checks)).Nodup := by
  have hchain : List.Chain' (· < ·) (resolvedVals (infer_missing_check_numbers checks)) := by
    rw [infer_missing_check_numbers]
    refine foldl_inferOne_chain (missingIndices checks) checks ?_
      (missingIndices_pairwise checks) h
    intro i hi
    obtain ⟨hl, hmn⟩ := mem_missingIndices hi
    exact ⟨hl, numVal_of_MISSING hmn⟩
  refine ⟨hchain, ?_⟩
  have hnd : (resolvedVals (infer_missing_check_numbers checks)).Nodup := chain_lt_nodup hchain
  rw [resolvedVals_eq_map_resolvedIds] at hnd
  exact List.Nodup.of_map _ hnd

/-- C4, counterexample: on a batch with unique resolved identifiers
0200000002, 0200000001 and a trailing placeholder, inference assigns the
placeholder 0200000002 (nearest preceding numeric neighbour + 1), which
already occurs in the batch — uniqueness is broken. -/
theorem infer_duplicate_identifier :
    (resolvedIds cx4In).Nodup ∧
    ¬ (resolvedIds (infer_missing_check_numbers cx4In)).Nodup :=
  ⟨by decide, by decide⟩

theorem cx4Sorted_chain : List.Chain' (· < ·) (resolvedVals cx4Sorted) := by
  have hvals : resolvedVals cx4Sorted = [200000001, 200000003] := by decide
  rw [hvals]
  exact List.chain'_cons.2 ⟨by norm_num, List.chain'_singleton _⟩

/-- Witness for C4 on a concrete strictly increasing batch. -/
theorem infer_sorted_preserves_uniqueness_witness :
    List.Chain' (· < ·) (resolvedVals cx4Sorted) ∧
    (List.Chain' (· < ·) (resolvedVals (infer_missing_check_numbers cx4Sorted)) ∧
     (resolvedIds (infer_missing_check_numbers cx4Sorted)).Nodup) :=
  ⟨cx4Sorted_chain, infer_sorted_preserves_uniqueness cx4Sorted cx4Sorted_chain⟩

end ClaimC4

section ClaimC3

open ParseCheckRegister

theorem filter_range_eq_singleton (n idx : Nat) (p : Nat → Bool) (hidx : idx < n)
    (hp : ∀ j, j < n → (p j = true ↔ j = idx)) :
    (List.range n).filter p = [idx] := by
  have key : ∀ m, m ≤ n → (List.range m).filter p = if idx < m then [idx] else [] := by
    intro m
    induction m with
    | zero => intro _; simp
    | succ m ih =>
        intro hm
        rw [List.range_succ, List.filter_append, ih (Nat.le_of_succ_le hm)]
        have hfm : List.filter p [m] = if p m then [m] else [] := by
          cases hpm : p m <;> simp [List.filter, hpm]
        by_cases hcase : m = idx
        · subst hcase
          rw [hfm, if_pos ((hp m (Nat.lt_of_succ_le hm)).2 rfl),
            if_neg (Nat.lt_irrefl m), if_pos (Nat.lt_succ_self m)]
          rfl
        · rw [hfm, if_neg (fun hpm => hcase ((hp m (Nat.lt_of_succ_le hm)).1 hpm))]
          by_cases hlt : idx < m
          · rw [if_pos hlt, if_pos (Nat.lt_succ_of_lt hlt), List.append_nil]
          · rw [if_neg hlt, if_neg (by omega), List.append_nil]
  have := key n (Nat.le_refl n)
  rwa [if_pos hidx] at this

theorem missingIndices_singleton (checks : List Check) (idx : Nat)
    (hlen : idx < checks.length)
    (hm : (checks.getD idx default).check_number = MISSING)
    (huniq : ∀ j, j < checks.length → j ≠ idx →
      (checks.getD j default).check_number ≠ MISSING) :
    missingIndices checks = [idx] := by
  unfold missingIndices
  refine filter_range_eq_singleton _ _ _ hlen ?_
  intro j hj
  constructor
  · intro hpj
    by_contra hne
    exact huniq j hj hne (by simpa using hpj)
  · intro hji
    subst hji
    simpa using hm

theorem getD_set_self (l : List Check) (idx : Nat) (hlen : idx < l.length) (c' : Check) :
    (l.set idx c').getD idx default = c' := by
  rw [List.getD_eq_getElem?_getD, List.getElem?_set_self hlen, Option.getD_some]

/-- C3, amended: for a batch with a single placeholder record, inference
resolves it exactly when a preceding numeric neighbour exists and either
no following numeric neighbour exists (then the assigned value is the
preceding value + 1) or the following neighbour is exactly the preceding
value + 2 (then the single value in between is assigned, formatted with
the preceding neighbour's series convention); with both neighbours at any
other distance, or with no preceding neighbour, the placeholder stays
unresolved; records at other positions are untouched. -/
theorem infer_single_placeholder_rule (checks : List Check) (idx : Nat)
    (hlen : idx < checks.length)
    (hm : (checks.getD idx default).check_number = MISSING)
    (huniq : ∀ j, j < checks.length → j ≠ idx →
      (checks.getD j default).check_number ≠ MISSING) :
    (((infer_missing_check_numbers checks).getD idx default).check_number ≠ MISSING ↔
      ∃ k b, findBeforeNum checks idx = some (k, b) ∧
        (findAfterNum checks idx = none ∨ findAfterNum checks idx = some (b + 2))) ∧
    (∀ k b, findBeforeNum checks idx = some (k, b) →
      (findAfterNum checks idx = none ∨ findAfterNum checks idx = some (b + 2)) →
      ((infer_missing_check_numbers checks).getD idx default).check_number =
        fmtAssigned k (b + 1)) ∧
    (∀ j, j ≠ idx →
      (infer_missing_check_numbers checks).getD j default = checks.getD j default) := by
  have hone : infer_missing_check_numbers checks = inferOne checks idx := by
    rw [infer_missing_check_numbers, missingIndices_singleton checks idx hlen hm huniq]
    rfl
  rw [hone]
  refine ⟨?_, ?_, fun j hj => inferOne_getD_ne checks idx j hj⟩
  · cases hbefore : findBeforeNum checks idx with
    | none =>
        have hres : inferOne checks idx = checks := by
          unfold inferOne
          rw [hbefore]
        rw [hres]
        refine iff_of_false (fun hne => hne hm) ?_
        rintro ⟨k, b, hk, -⟩
        exact Option.noConfusion hk
    | some p =>
        obtain ⟨k, b⟩ := p
        cases hafter : findAfterNum checks idx with
        | none =>
            have hres : inferOne checks idx = checks.set idx
                { checks.getD idx default with check_number := fmtAssigned k (b + 1) } := by
              unfold inferOne
              rw [hbefore, hafter]
            rw [hres, getD_set_self checks idx hlen]
            exact iff_of_true (fmtAssigned_ne_MISSING k (b + 1)) ⟨k, b, rfl, Or.inl rfl⟩
        | some a =>
            by_cases hgap : (a : ℤ) - (b : ℤ) = 2
            · have hres : inferOne checks idx = checks.set idx
                  { checks.getD idx default with check_number := fmtAssigned k (b + 1) } := by
                unfold inferOne
                rw [hbefore, hafter]
                exact if_pos hgap
              have hab : a = b + 2 := by omega
              rw [hres, getD_set_self checks idx hlen]
              exact iff_of_true (fmtAssigned_ne_MISSING k (b + 1))
                ⟨k, b, rfl, Or.inr (by rw [hab])⟩
            · have hres : inferOne checks idx = checks := by
                unfold inferOne
                rw [hbefore, hafter]
                exact if_neg hgap
              rw [hres]
              refine iff_of_false (fun hne => hne hm) ?_
              rintro ⟨k', b', hk', hor⟩
              have hkb : k = k' ∧ b = b' := by
                have := Option.some_injective _ hk'
                exact ⟨congrArg Prod.fst this, congrArg Prod.snd this⟩
              rcases hor with hnone | hsome
              · exact Option.noConfusion hnone
              · have ha : a = b' + 2 := Option.some_injective _ hsome
                have hb : b = b' := hkb.2
                omega
  · intro k' b' hk' hor
    rcases hor with hnone | hsome
    · have hres : inferOne checks idx = checks.set idx
          { checks.getD idx default with check_number := fmtAssigned k' (b' + 1) } := by
        unfold inferOne
        rw [hk', hnone]
      rw [hres, getD_set_self checks idx hlen]
    · have hgap : ((b' + 2 : Nat) : ℤ) - (b' : ℤ) = 2 := by push_cast; ring
      have hres : inferOne checks idx = checks.set idx
          { checks.getD idx default with check_number := fmtAssigned k' (b' + 1) } := by
        unfold inferOne
        rw [hk', hsome]
        exact if_pos hgap
      rw [hres, getD_set_self checks idx hlen]

/-- C3, counterexample: the trailing placeholder has no following numeric
neighbour — so no neighbour distance of 2 exists — yet inference assigns
it 0200000002 (preceding value + 1), contradicting "assigns only when the
distance between its neighbours is exactly 2". -/
theorem infer_trailing_placeholder_assigned :
    (cx3In.getD 1 default).check_number = MISSING ∧
    findAfterNum cx3In 1 = none ∧
    ((infer_missing_check_numbers cx3In).getD 1 default).check_number = txt "0200000002" :=
  ⟨by decide, by decide, by decide⟩

/-- Witness for C3 on a concrete single-placeholder batch. -/
theorem infer_single_placeholder_rule_witness :
    1 < cx3W.length ∧
    (cx3W.getD 1 default).check_number = MISSING ∧
    (∀ j, j < cx3W.length → j ≠ 1 → (cx3W.getD j default).check_number ≠ MISSING) ∧
    ((((infer_missing_check_numbers cx3W).getD 1 default).check_number ≠ MISSING ↔
      ∃ k b, findBeforeNum cx3W 1 = some (k, b) ∧
        (findAfterNum cx3W 1 = none ∨ findAfterNum cx3W 1 = some (b + 2))) ∧
    (∀ k b, findBeforeNum cx3W 1 = some (k, b) →
      (findAfterNum cx3W 1 = none ∨ findAfterNum cx3W 1 = some (b + 2)) →
      ((infer_missing_check_numbers cx3W).getD 1 default).check_number =
        fmtAssigned k (b + 1)) ∧
    (∀ j, j ≠ 1 →
      (infer_missing_check_numbers cx3W).getD j default = cx3W.getD j default)) :=
  ⟨by decide, by decide,
    by
      intro j hj hne
      have h3 : cx3W.length = 3 := by decide
      rw [h3] at hj
      interval_cases j
      · decide
      · exact absurd rfl hne
      · decide,
    infer_single_placeholder_rule cx3W 1 (by decide) (by decide)
      (by
        intro j hj hne
        have h3 : cx3W.length = 3 := by decide
        rw [h3] at hj
        interval_cases j
        · decide
        · exact absurd rfl hne
        · decide)⟩

end ClaimC3

section ClaimC10

open ParseCheckRegister

theorem foldl_inferOne_frame : ∀ (idxs : List Nat) (cs : List Check),
    ((idxs.foldl inferOne cs).length = cs.length) ∧
    (∀ i, chassis ((idxs.foldl inferOne cs).getD i default) = chassis (cs.getD i default)) ∧
    (∀ i, i ∉ idxs → (idxs.foldl inferOne cs).getD i default = cs.getD i default) := by
  intro idxs
  induction idxs with
  | nil => intro cs; exact ⟨rfl, fun _ => rfl, fun _ _ => rfl⟩
  | cons a rest ih =>
      intro cs
      rw [List.foldl_cons]
      obtain ⟨ihlen, ihch, ihun⟩ := ih (inferOne cs a)
      refine ⟨?_, ?_, ?_⟩
      · rw [ihlen, inferOne_length]
      · intro i
        rw [ihch i, inferOne_chassis]
      · intro i hi
        have hia : i ≠ a := fun h => hi (h ▸ List.mem_cons_self a rest)
        have hirest : i ∉ rest := fun h => hi (List.mem_cons_of_mem a h)
        rw [ihun i hirest, inferOne_getD_ne cs a i hia]

/-- C10: `infer_missing_check_numbers` preserves the batch's length and
order, changes nothing but the `check_number` field at any position (the
date, payee, code, amount, cancellation flag, page and sub-lines of every
record survive unchanged), and leaves every record whose identifier is not
the `_MISSING_` placeholder entirely untouched. -/
theorem infer_frame_effect (checks : List Check) :
    (infer_missing_check_numbers checks).length = checks.length ∧
    (∀ i, chassis ((infer_missing_check_numbers checks).getD i default) =
      chassis (checks.getD i default)) ∧
    (∀ i, (checks.getD i default).check_number ≠ MISSING →
      (infer_missing_check_numbers checks).getD i default = checks.getD i default) := by
  obtain ⟨hlen, hch, hun⟩ := foldl_inferOne_frame (missingIndices checks) checks
  refine ⟨hlen, hch, ?_⟩
  intro i hi
  refine hun i ?_
  intro hmem
  exact hi (mem_missingIndices hmem).2

end ClaimC10
